import Mathlib

/-!
Verification development for the TPC Workshop Reporter core
(`tpc_reporter/assembler.py`, `tpc_reporter/generator.py`,
`tpc_reporter/checker.py`).

The Python source is shallowly embedded: pure functions become Lean
functions over `String` / `List Char`; file access is modelled by passing
the (optional) file contents explicitly; CSV parsing is modelled at the
level of already-split rows (`List (List String)`), which is the data the
Python `csv` module hands to the repository code.  Regular-expression
matching in `checker.py` is embedded by a direct translation of the
backtracking search performed by Python's `re` engine on the concrete
patterns appearing in the source (ASCII `\s` and `\d` classes, which is
what all inputs produced by this pipeline contain).
-/

namespace TPC

/-- ASCII whitespace, the characters matched by `\s` / stripped by
`str.strip()` for ASCII text: space, tab, newline, carriage return,
vertical tab, form feed. -/
def pyIsSpace (c : Char) : Bool :=
  c = ' ' || c = '\t' || c = '\n' || c = '\r' || c = Char.ofNat 11 || c = Char.ofNat 12

/-- `str.strip()` on a character list: drop leading and trailing whitespace. -/
def stripChars (l : List Char) : List Char :=
  ((l.dropWhile pyIsSpace).reverse.dropWhile pyIsSpace).reverse

/-- `str.strip()`. -/
def pyStrip (s : String) : String := String.mk (stripChars s.data)

/-- `str.lower()` (ASCII case folding). -/
def pyLower (s : String) : String := String.mk (s.data.map Char.toLower)

/-! ## checker.py: extract_flags

Source pattern (checker.py line 97):
`\[FLAG:\s*([^"\]]+?)(?:\s+"([^"]+)")?\]`, applied with `re.findall`.
The functions below reproduce the backtracking search of the `re` engine
for exactly this pattern: `\s*` is greedy (tried longest first), group 1
(`[^"\]]+?`) is lazy (tried shortest first), and the optional group
`(?:\s+"([^"]+)")?` is tried present-first. -/

/-- One inline flag, a dictionary with `type` and `description` keys. -/
structure Flag where
  type : String
  description : String
deriving Repr, DecidableEq

/-- Length of the maximal whitespace run at the head of the list
(the extent of a greedy `\s*` / `\s+` match). -/
def wsRun : List Char → Nat
  | [] => 0
  | c :: r => if pyIsSpace c then wsRun r + 1 else 0

/-- Characters admitted by the group-1 class `[^"\]]`. -/
def flagTypeChar (c : Char) : Bool := !(c = '"' || c = ']')

/-- Attempt `"([^"]+)"` followed by `]` at the head of `rest`
(the tail of the optional group after its `\s+`).  `[^"]+` is greedy and
cannot backtrack usefully: only the maximal run can be followed by `"`. -/
def tryQuoted (rest : List Char) : Option (List Char × List Char) :=
  match rest with
  | c :: r =>
    if c = '"' then
      let d := r.takeWhile (fun x => x != '"')
      let r2 := r.dropWhile (fun x => x != '"')
      if d.isEmpty then none
      else
        match r2 with
        | c2 :: c3 :: r3 => if c2 = '"' && c3 = ']' then some (d, r3) else none
        | _ => none
    else none
  | [] => none

/-- Attempt the optional group `\s+"([^"]+)"` followed by `]`, trying the
greedy `\s+` lengths from `sl` down to `1`. -/
def tryOpt : Nat → List Char → Option (List Char × List Char)
  | 0, _ => none
  | sl + 1, rest =>
    match tryQuoted (rest.drop (sl + 1)) with
    | some x => some x
    | none => tryOpt sl rest

/-- Continuation after group 1 has consumed `acc`: try the optional group
(present first), then the bare closing `]` (group 2 empty, as `re.findall`
reports an unmatched group as `""`). Returns (group1, group2, rest). -/
def tryCont (acc rest : List Char) : Option (List Char × List Char × List Char) :=
  match tryOpt (wsRun rest) rest with
  | some (d, r) => some (acc, d, r)
  | none =>
    match rest with
    | c :: r => if c = ']' then some (acc, [], r) else none
    | [] => none

/-- Lazy group 1 (`[^"\]]+?`): consume one admissible character at a time,
trying the continuation after each. -/
def group1Loop : List Char → List Char → Option (List Char × List Char × List Char)
  | _, [] => none
  | acc, c :: r =>
    if flagTypeChar c then
      match tryCont (acc ++ [c]) r with
      | some res => some res
      | none => group1Loop (acc ++ [c]) r
    else none

/-- Greedy `\s*` after the literal `[FLAG:`: try skipping `n` whitespace
characters, longest first. -/
def tryWs : Nat → List Char → Option (List Char × List Char × List Char)
  | 0, s => group1Loop [] s
  | n + 1, s =>
    match group1Loop [] (s.drop (n + 1)) with
    | some res => some res
    | none => tryWs n s

/-- Attempt the whole pattern at the head of `s`: the literal `[FLAG:`
followed by the rest of the pattern. -/
def matchFlagAt (s : List Char) : Option (List Char × List Char × List Char) :=
  if ("[FLAG:".data).isPrefixOf s then
    tryWs (wsRun (s.drop 6)) (s.drop 6)
  else none

theorem tryQuoted_shrink (rest d r3 : List Char)
    (h : tryQuoted rest = some (d, r3)) : r3.length < rest.length := by
  unfold tryQuoted at h
  cases rest with
  | nil => simp at h
  | cons c r =>
    simp only at h
    split at h
    · split at h
      · simp at h
      · split at h
        next c2 c3 r3h _ =>
          split at h
          · have hd : (c2 :: c3 :: r3h).length ≤ r.length := by
              have := (List.dropWhile_sublist (l := r) (fun x => x != '"')).length_le
              simp_all
            simp only [Option.some.injEq, Prod.mk.injEq] at h
            obtain ⟨_, h2⟩ := h
            subst h2
            simp only [List.length_cons] at hd ⊢
            omega
          · simp at h
        · simp at h
    · simp at h

theorem tryOpt_shrink (n : Nat) (rest d r3 : List Char)
    (h : tryOpt n rest = some (d, r3)) : r3.length < rest.length := by
  induction n with
  | zero => simp [tryOpt] at h
  | succ m ih =>
    unfold tryOpt at h
    split at h
    next x heq =>
      obtain ⟨rfl⟩ : x = (d, r3) := by simpa using h
      have := tryQuoted_shrink _ _ _ heq
      have := List.length_drop (m + 1) rest
      omega
    next => exact ih h

theorem tryCont_shrink (acc rest t d r3 : List Char)
    (h : tryCont acc rest = some (t, d, r3)) : r3.length < rest.length := by
  unfold tryCont at h
  split at h
  next d0 r0 heq =>
    simp only [Option.some.injEq, Prod.mk.injEq] at h
    obtain ⟨_, _, h3⟩ := h
    subst h3
    exact tryOpt_shrink _ _ _ _ heq
  next =>
    cases rest with
    | nil => simp at h
    | cons c r0 =>
      simp only at h
      split at h
      · simp only [Option.some.injEq, Prod.mk.injEq] at h
        obtain ⟨_, _, h3⟩ := h
        subst h3
        simp
      · simp at h

theorem group1Loop_shrink (rest : List Char) : ∀ acc t d r3,
    group1Loop acc rest = some (t, d, r3) → r3.length < rest.length := by
  induction rest with
  | nil => intro acc t d r3 h; simp [group1Loop] at h
  | cons c r ih =>
    intro acc t d r3 h
    unfold group1Loop at h
    split at h
    · split at h
      next res heq =>
        obtain rfl : res = (t, d, r3) := by simpa using h
        have := tryCont_shrink _ _ _ _ _ heq
        simp only [List.length_cons]
        omega
      next =>
        have := ih _ _ _ _ h
        simp only [List.length_cons]
        omega
    · simp at h

theorem tryWs_shrink (n : Nat) (s t d r3 : List Char)
    (h : tryWs n s = some (t, d, r3)) : r3.length < s.length := by
  induction n with
  | zero => exact group1Loop_shrink _ _ _ _ _ h
  | succ m ih =>
    unfold tryWs at h
    split at h
    next res heq =>
      obtain rfl : res = (t, d, r3) := by simpa using h
      have := group1Loop_shrink _ _ _ _ _ heq
      have := List.length_drop (m + 1) s
      omega
    next => exact ih h

theorem isPrefixOf_length_le {l1 l2 : List Char} (h : l1.isPrefixOf l2 = true) :
    l1.length ≤ l2.length := by
  induction l1 generalizing l2 with
  | nil => simp
  | cons a as ih =>
    cases l2 with
    | nil => simp [List.isPrefixOf] at h
    | cons b bs =>
      simp only [List.isPrefixOf, Bool.and_eq_true_iff] at h
      have := ih h.2
      simp only [List.length_cons]
      omega

theorem matchFlagAt_shrink (s t d r3 : List Char)
    (h : matchFlagAt s = some (t, d, r3)) : r3.length < s.length := by
  unfold matchFlagAt at h
  split at h
  next hp =>
    have h6 : 6 ≤ s.length := by
      have := isPrefixOf_length_le hp
      simpa using this
    have := tryWs_shrink _ _ _ _ _ h
    have := List.length_drop 6 s
    omega
  next => simp at h

/-- The `re.findall` scan: try the pattern at each position, left to
right; on a match, record stripped group 1 and group 2 and resume after
the match; otherwise advance one character.  The scan is written with a
fuel argument (one unit per scanned position) to keep the recursion
structural; `matchFlagAt_shrink` shows any fuel of at least the input
length computes the full scan. -/
def extractFlagsAux : Nat → List Char → List Flag
  | 0, _ => []
  | _ + 1, [] => []
  | fuel + 1, c :: r =>
    match matchFlagAt (c :: r) with
    | some (t, d, rest) =>
      { type := String.mk (stripChars t), description := String.mk d }
        :: extractFlagsAux fuel rest
    | none => extractFlagsAux fuel r

/-- `checker.extract_flags` (checker.py lines 86-106). -/
def extract_flags (checked_report : String) : List Flag :=
  extractFlagsAux checked_report.data.length checked_report.data

/-! ## checker.py: parse_verification_summary -/

/-- Digit run to `int(...)`. -/
def digitsToNat (ds : List Char) : Nat :=
  ds.foldl (fun n c => n * 10 + (c.toNat - '0'.toNat)) 0

/-- What remains after a greedy `\s*` match. -/
def afterWs (t : List Char) : List Char := t.drop (wsRun t)

/-- The greedy `(\d+)` digit run after a greedy `\s*`. -/
def digitsAfterWs (t : List Char) : List Char :=
  (afterWs t).takeWhile Char.isDigit

/-- `re.search` for a pattern `<label>\s*(\d+)`: leftmost position at
which the literal label is followed by optional whitespace and at least
one digit; the greedy digit run is converted to a number. -/
def searchLabeledNat (label : List Char) : List Char → Option Nat
  | [] => none
  | c :: r =>
    if label.isPrefixOf (c :: r) then
      if (digitsAfterWs ((c :: r).drop label.length)).isEmpty then
        searchLabeledNat label r
      else some (digitsToNat (digitsAfterWs ((c :: r).drop label.length)))
    else searchLabeledNat label r

/-- `re.search` for
`\*\*Verification status:\*\*\s*(PASS|REVIEW NEEDED|MAJOR ISSUES)`:
leftmost position at which the literal label is followed by optional
whitespace and one of the three alternatives (tried in pattern order). -/
def searchStatus : List Char → Option String
  | [] => none
  | c :: r =>
    if ("**Verification status:**".data).isPrefixOf (c :: r) then
      if ("PASS".data).isPrefixOf
          (afterWs ((c :: r).drop ("**Verification status:**".data).length)) then
        some "PASS"
      else if ("REVIEW NEEDED".data).isPrefixOf
          (afterWs ((c :: r).drop ("**Verification status:**".data).length)) then
        some "REVIEW NEEDED"
      else if ("MAJOR ISSUES".data).isPrefixOf
          (afterWs ((c :: r).drop ("**Verification status:**".data).length)) then
        some "MAJOR ISSUES"
      else searchStatus r
    else searchStatus r

/-- The summary dictionary returned by `parse_verification_summary`. -/
structure VerificationSummary where
  total_flags : Nat
  status : String
  breakdown : List (String × Nat)
deriving Repr, DecidableEq

/-- The `breakdown_patterns` table (checker.py lines 139-145). -/
def breakdownPatterns : List (String × String) :=
  [("Unknown persons:", "unknown_persons"),
   ("Unknown organizations:", "unknown_organizations"),
   ("Unverified talks:", "unverified_talks"),
   ("Unsupported claims:", "unsupported_claims"),
   ("Other issues:", "other_issues")]

/-- `checker.parse_verification_summary` (checker.py lines 109-152).
Missing fields keep their defaults `0` / `"UNKNOWN"` / absent entry. -/
def parse_verification_summary (checked_report : String) : VerificationSummary :=
  let cs := checked_report.data
  { total_flags := (searchLabeledNat ("**Total flags:**".data) cs).getD 0
    status := (searchStatus cs).getD "UNKNOWN"
    breakdown := breakdownPatterns.filterMap (fun p =>
      (searchLabeledNat p.1.data cs).map (fun n => (p.2, n))) }

/-! ## Data model (assembler.py)

The bundle dictionaries built by `assemble_track_bundle` are embedded as
structures.  Places where `format_track_bundle` branches on
`isinstance(x, dict)` for session-level lists are embedded as sum types
(`LeaderEntry`, `TalkEntry`, `AttendeeEntry`); talk authors are kept
structured (`Author`), since `assemble_track_bundle` itself calls
`author.get(...)` on them and so requires dictionaries. -/

/-- An author dictionary `{name, affiliation}`. -/
structure Author where
  name : String
  affiliation : String
deriving Repr, DecidableEq

/-- A lightning-talk dictionary as built by `load_lightning_talks_csv`. -/
structure Talk where
  title : String
  authors : List Author
  abstract : String
  track : String
deriving Repr, DecidableEq

/-- An attendee dictionary `{name, organization}`. -/
structure Attendee where
  name : String
  organization : String
deriving Repr, DecidableEq

/-- A session `leaders` element: a `{name, affiliation}` dictionary or a
plain string (generator.py lines 90-96). -/
inductive LeaderEntry where
  | obj (name affiliation : String)
  | str (s : String)
deriving Repr, DecidableEq

/-- A session `lightning_talks` element: a talk dictionary or a plain
string (generator.py lines 105, 120-121). -/
inductive TalkEntry where
  | obj (t : Talk)
  | str (s : String)
deriving Repr, DecidableEq

/-- A session `attendees` element: an attendee dictionary or a plain
string (generator.py lines 129-135). -/
inductive AttendeeEntry where
  | obj (a : Attendee)
  | str (s : String)
deriving Repr, DecidableEq

/-- A session dictionary (assembler.py lines 282-292). -/
structure Session where
  id : String
  title : String
  slot : Option String
  leaders : List LeaderEntry
  lightning_talks : List TalkEntry
  attendees : List AttendeeEntry
  notes : Option String
deriving Repr, DecidableEq

/-- The `track` sub-dictionary of a bundle. -/
structure TrackInfo where
  id : String
  name : String
  room : Option String
deriving Repr, DecidableEq

/-- A track bundle (assembler.py lines 299-307). -/
structure Bundle where
  track : TrackInfo
  sessions : List Session
  sources : List String
deriving Repr, DecidableEq

/-- `AssemblyWarning` (assembler.py lines 18-25). -/
structure AssemblyWarning where
  track_id : String
  session_id : Option String
  message : String
  severity : String
deriving Repr, DecidableEq

/-- `AssemblyResult` (assembler.py lines 28-41). -/
structure AssemblyResult where
  bundle : Bundle
  warnings : List AssemblyWarning
deriving Repr, DecidableEq

/-! ## assembler.py: loaders

A file on disk is modelled as `Option` of its parsed content: `none` when
the path does not exist.  CSV content is the row list the Python `csv`
module produces. -/

/-- The row-processing loop of `load_lightning_talks_csv`
(assembler.py lines 86-111): skip the header row, skip rows shorter than
8 columns, extract columns 2/3/5/6/7 stripped, skip rows without a
title. -/
def load_lightning_talks (rows : List (List String)) : List Talk :=
  (rows.drop 1).filterMap (fun row =>
    if row.length < 8 then none
    else
      let speaker := pyStrip (row.getD 2 "")
      let institution := pyStrip (row.getD 3 "")
      let title := pyStrip (row.getD 5 "")
      let abstract := pyStrip (row.getD 6 "")
      let track := pyStrip (row.getD 7 "")
      if title = "" then none
      else some { title := title,
                  authors := [{ name := speaker, affiliation := institution }],
                  abstract := abstract, track := track })

/-- `assembler.load_lightning_talks_csv` (assembler.py lines 62-111):
raises `FileNotFoundError` when the path does not exist. -/
def load_lightning_talks_csv (csv_path : String)
    (file : Option (List (List String))) : Except String (List Talk) :=
  match file with
  | none => Except.error ("Lightning talks CSV not found: " ++ csv_path)
  | some rows => Except.ok (load_lightning_talks rows)

/-- `row.get(key)` for a `csv.DictReader` row: the header is zipped with
the row values; an absent key (or a key beyond the row's length, whose
value the `DictReader` fills with `None`) yields `none`. -/
def dictGet (header row : List String) (key : String) : Option String :=
  (header.zip row).lookup key

/-- The Python `a or b or ... or ""` chain: the first present, non-empty
string, defaulting to `""`. -/
def firstTruthy : List (Option String) → String
  | [] => ""
  | none :: rest => firstTruthy rest
  | some s :: rest => if s = "" then firstTruthy rest else s

/-- The row-processing loop of `load_attendees_csv`
(assembler.py lines 130-154): header-name synonyms for name and
organization, keeping rows whose stripped name is non-empty. -/
def load_attendees (rows : List (List String)) : List Attendee :=
  match rows with
  | [] => []
  | header :: dataRows =>
    dataRows.filterMap (fun row =>
      let name := firstTruthy
        [dictGet header row "Name", dictGet header row "name",
         dictGet header row "Full Name", dictGet header row "Attendee"]
      let org := firstTruthy
        [dictGet header row "Organization", dictGet header row "organization",
         dictGet header row "Institution", dictGet header row "Affiliation"]
      if pyStrip name = "" then none
      else some { name := pyStrip name, organization := pyStrip org })

/-- `assembler.load_attendees_csv` (assembler.py lines 114-154):
a missing file yields the empty list, not an error. -/
def load_attendees_csv (csv_path : String)
    (file : Option (List (List String))) : List Attendee :=
  match file with
  | none => []
  | some rows => load_attendees rows

/-- `assembler.load_notes_file` (assembler.py lines 157-172):
file contents verbatim, or `none` when the path does not exist. -/
def load_notes_file (notes_path : String) (file : Option String) : Option String :=
  match file with
  | none => none
  | some contents => some contents

/-! ## assembler.py: assemble_track_bundle -/

/-- The speaker-merge loop of `assemble_track_bundle`
(assembler.py lines 263-275): fold over the talks' authors, appending
each author whose name is non-empty and whose lowercased name is not in
the seen-set, and recording the lowercased name. -/
def mergeAttendees (attendees : List Attendee) (track_talks : List Talk) : List Attendee :=
  (track_talks.foldl (fun st talk =>
      talk.authors.foldl (fun st author =>
          if author.name != "" && !(st.2.contains (pyLower author.name)) then
            (st.1 ++ [{ name := author.name, organization := author.affiliation }],
             st.2 ++ [pyLower author.name])
          else st)
        st)
    (attendees, attendees.map (fun a => pyLower a.name))).1

/-- A track-inputs directory: its path string (used in warning messages)
and its files, split by the kind of content the probed candidates carry
(the attendee candidates and the notes candidates are disjoint filename
sets, so the two maps model one directory faithfully). -/
structure TrackInputs where
  dirName : String
  csvFiles : List (String × List (List String))
  textFiles : List (String × String)
deriving Repr

/-- The candidate-probing loop (assembler.py lines 225-228, 248-251):
the first existing candidate wins; returns its name and content. -/
def findFirstFile {α : Type} : List String → List (String × α) → Option (String × α)
  | [], _ => none
  | c :: rest, files =>
    match files.lookup c with
    | some v => some (c, v)
    | none => findFirstFile rest files

/-- `assembler.assemble_track_bundle` (assembler.py lines 175-309).
`track_inputs_dir = none` models both `None` and the falsy empty path.
`sessions = some ss` with `ss = []` is falsy in Python, hence also
synthesizes a single session. -/
def assemble_track_bundle (track_id track_name : String)
    (lightning_talks : List Talk) (track_inputs_dir : Option TrackInputs)
    (room : Option String) (sessions : Option (List Session)) : AssemblyResult :=
  let track_talks := lightning_talks.filter (fun t => t.track = track_id)
  let noTalksWarnings : List AssemblyWarning :=
    if track_talks.isEmpty then
      [{ track_id := track_id, session_id := none,
         message := "No lightning talks found for track " ++ track_id,
         severity := "warning" }]
    else []
  let attendees0 : List Attendee :=
    match track_inputs_dir with
    | none => []
    | some dir =>
      match findFirstFile
          ["attendees.csv", "Attendees.csv", track_id ++ "_attendees.csv"]
          dir.csvFiles with
      | some (p, rows) => load_attendees_csv p (some rows)
      | none => []
  let attendeeWarnings : List AssemblyWarning :=
    match track_inputs_dir with
    | none => []
    | some dir =>
      if attendees0.isEmpty then
        [{ track_id := track_id, session_id := none,
           message := "No attendees file found in " ++ dir.dirName,
           severity := "warning" }]
      else []
  let notes : Option String :=
    match track_inputs_dir with
    | none => none
    | some dir =>
      match findFirstFile
          [track_id ++ "-notes.txt", track_id ++ "_notes.txt", "notes.txt",
           track_id ++ "-notes.md", "notes.md"]
          dir.textFiles with
      | some (p, contents) => load_notes_file p (some contents)
      | none => none
  let notesWarnings : List AssemblyWarning :=
    match track_inputs_dir with
    | none => []
    | some dir =>
      if notes = none || notes = some "" then
        [{ track_id := track_id, session_id := none,
           message := "No notes file found in " ++ dir.dirName,
           severity := "warning" }]
      else []
  let attendees := mergeAttendees attendees0 track_talks
  let synthSession : Session :=
    { id := track_id ++ "-session-1", title := track_name ++ " Session",
      slot := none, leaders := [],
      lightning_talks := track_talks.map TalkEntry.obj,
      attendees := attendees.map AttendeeEntry.obj, notes := notes }
  let assembled_sessions : List Session :=
    match sessions with
    | some ss => if ss.isEmpty then [synthSession] else ss
    | none => [synthSession]
  let sources : List String :=
    match track_inputs_dir with
    | none => []
    | some dir => ["Track inputs: " ++ dir.dirName]
  { bundle := { track := { id := track_id, name := track_name, room := room },
                sessions := assembled_sessions, sources := sources },
    warnings := noTalksWarnings ++ attendeeWarnings ++ notesWarnings }

/-! ## generator.py: format_track_bundle -/

/-- The leaders block (generator.py lines 88-97): the source branches on
`isinstance(leaders[0], dict)`; both element renderings are given
elementwise (on a heterogeneous list the source raises, which no
assembler output produces). -/
def leaderLines (leaders : List LeaderEntry) : List String :=
  match leaders with
  | [] => []
  | first :: _ =>
    let strs :=
      match first with
      | LeaderEntry.obj _ _ =>
        leaders.map (fun l => match l with
          | LeaderEntry.obj n a => n ++ " (" ++ a ++ ")"
          | LeaderEntry.str s => s)
      | LeaderEntry.str _ =>
        leaders.map (fun l => match l with
          | LeaderEntry.str s => s
          | LeaderEntry.obj n a => n ++ " (" ++ a ++ ")")
    ["Leaders: " ++ String.intercalate ", " strs]

/-- One talk's lines (generator.py lines 104-121). -/
def talkLines (talk : TalkEntry) : List String :=
  match talk with
  | TalkEntry.obj t =>
    ["**" ++ t.title ++ "**"]
    ++ (match t.authors with
        | [] => []
        | _ :: _ =>
          ["Authors: " ++ String.intercalate ", "
            (t.authors.map (fun a => a.name ++ " (" ++ a.affiliation ++ ")"))])
    ++ (if t.abstract = "" then [] else ["Abstract: " ++ t.abstract])
    ++ [""]
  | TalkEntry.str s => ["- " ++ s]

/-- One attendee line (generator.py lines 128-135). -/
def attendeeLine : AttendeeEntry → String
  | AttendeeEntry.obj a => "- " ++ a.name ++ " (" ++ a.organization ++ ")"
  | AttendeeEntry.str s => "- " ++ s

/-- One session's lines (generator.py lines 83-143). -/
def sessionLines (session : Session) : List String :=
  ["## Session: " ++ session.title,
   "Time: " ++ (match session.slot with | some t => t | none => "None")]
  ++ leaderLines session.leaders
  ++ [""]
  ++ (match session.lightning_talks with
      | [] => []
      | _ :: _ =>
        ["### Lightning Talks"]
        ++ (session.lightning_talks.map talkLines).flatten
        ++ [""])
  ++ (match session.attendees with
      | [] => []
      | _ :: _ => ["### Attendees"] ++ session.attendees.map attendeeLine ++ [""])
  ++ (match session.notes with
      | none => []
      | some n => if n = "" then [] else ["### Discussion Notes", n, ""])

/-- `generator.format_track_bundle` (generator.py lines 62-152). -/
def format_track_bundle (bundle : Bundle) : String :=
  let lines :=
    ["# Track: " ++ bundle.track.name]
    ++ (match bundle.track.room with
        | none => []
        | some r => if r = "" then [] else ["Room: " ++ r])
    ++ [""]
    ++ (bundle.sessions.map sessionLines).flatten
    ++ (match bundle.sources with
        | [] => []
        | _ :: _ => ["## Data Sources"] ++ bundle.sources.map (fun s => "- " ++ s))
  String.intercalate "\n" lines

/-! ## checker.py: check_report and generator.py: generate_report

The LLM client is modelled as a function from the message list (role,
content pairs) to the response text; the loaded prompt file is a string
parameter. -/

/-- `VerificationResult` (checker.py lines 20-42). -/
structure VerificationResult where
  report : String
  flags : List Flag
  total_flags : Nat
  status : String
deriving Repr, DecidableEq

/-- `VerificationResult.passed`. -/
def VerificationResult.passed (r : VerificationResult) : Bool :=
  r.total_flags == 0

/-- `VerificationResult.needs_review`. -/
def VerificationResult.needs_review (r : VerificationResult) : Bool :=
  decide (1 ≤ r.total_flags ∧ r.total_flags ≤ 5)

/-- `VerificationResult.has_major_issues`. -/
def VerificationResult.has_major_issues (r : VerificationResult) : Bool :=
  decide (r.total_flags > 5)

/-- The user message built by `check_report` (checker.py lines 187-195). -/
def checkerUserContent (source_text draft_report : String) : String :=
  "## Source Data (Ground Truth)\n\n" ++ source_text
  ++ "\n\n## Draft Report to Verify\n\n" ++ draft_report
  ++ "\n\nPlease verify this report against the source data and flag any hallucinations."

/-- The message list sent by `check_report`. -/
def checkerMessages (system_prompt draft_report : String) (bundle : Bundle) :
    List (String × String) :=
  [("system", system_prompt),
   ("user", checkerUserContent (format_track_bundle bundle) draft_report)]

/-- `checker.check_report` (checker.py lines 155-231), with the LLM call
abstracted as `client`. -/
def check_report (draft_report : String) (bundle : Bundle)
    (client : List (String × String) → String) (system_prompt : String) :
    VerificationResult :=
  let source_text := format_track_bundle bundle
  let user_content := checkerUserContent source_text draft_report
  let messages := [("system", system_prompt), ("user", user_content)]
  let checked_report := client messages
  let flags := extract_flags checked_report
  let summary := parse_verification_summary checked_report
  let total_flags := if summary.total_flags > 0 then summary.total_flags else flags.length
  let status :=
    if summary.status = "UNKNOWN" then
      if total_flags = 0 then "PASS"
      else if total_flags ≤ 5 then "REVIEW NEEDED"
      else "MAJOR ISSUES"
    else summary.status
  { report := checked_report, flags := flags,
    total_flags := total_flags, status := status }

/-- The message list sent by `generate_report` (generator.py
lines 185-192). -/
def generatorMessages (system_prompt : String) (bundle : Bundle) :
    List (String × String) :=
  [("system", system_prompt),
   ("user", "Generate the track report for the following data:\n\n"
            ++ format_track_bundle bundle)]

/-- `generator.generate_report` (generator.py lines 155-200), with the
LLM call abstracted as `client`. -/
def generate_report (bundle : Bundle)
    (client : List (String × String) → String) (system_prompt : String) : String :=
  client (generatorMessages system_prompt bundle)

/-! ## Helper lemmas -/

/-- `searchStatus` only ever returns one of the three status literals. -/
theorem searchStatus_literals (cs : List Char) (st : String)
    (h : searchStatus cs = some st) :
    st = "PASS" ∨ st = "REVIEW NEEDED" ∨ st = "MAJOR ISSUES" := by
  induction cs with
  | nil => simp [searchStatus] at h
  | cons c r ih =>
    unfold searchStatus at h
    split at h
    · split at h
      · left; exact (Option.some.injEq _ _ ▸ h).symm
      · split at h
        · right; left; exact (Option.some.injEq _ _ ▸ h).symm
        · split at h
          · right; right; exact (Option.some.injEq _ _ ▸ h).symm
          · exact ih h
    · exact ih h

/-- String append acts componentwise on the underlying character lists. -/
theorem string_data_append (s t : String) : (s ++ t).data = s.data ++ t.data := by
  obtain ⟨sd⟩ := s; obtain ⟨td⟩ := t; rfl

/-- The missing-attendees warning message never coincides with the
no-talks warning message. -/
theorem attendees_msg_ne_noTalks (x y : String) :
    ("No attendees file found in " ++ x) ≠ ("No lightning talks found for track " ++ y) := by
  intro h
  obtain ⟨xd⟩ := x
  obtain ⟨yd⟩ := y
  have h2 := congrArg String.data h
  simp [String.data] at h2

/-- The missing-notes warning message never coincides with the no-talks
warning message. -/
theorem notes_msg_ne_noTalks (x y : String) :
    ("No notes file found in " ++ x) ≠ ("No lightning talks found for track " ++ y) := by
  intro h
  obtain ⟨xd⟩ := x
  obtain ⟨yd⟩ := y
  have h2 := congrArg String.data h
  simp [String.data] at h2

/-- The name carried by a session attendee entry. -/
def attendeeEntryName : AttendeeEntry → String
  | AttendeeEntry.obj a => a.name
  | AttendeeEntry.str s => s

/-- The authors carried by a session lightning-talk entry (a plain-string
entry carries none). -/
def talkEntryAuthors : TalkEntry → List Author
  | TalkEntry.obj t => t.authors
  | TalkEntry.str _ => []

/-- Every attendee appended by the speaker-merge loop satisfies any
property enjoyed by the initial attendees and by every author-derived
record with a non-empty name. -/
theorem mergeAttendees_preserves (P : Attendee → Prop)
    (attendees : List Attendee) (talks : List Talk)
    (h0 : ∀ b ∈ attendees, P b)
    (hP : ∀ author : Author, author.name ≠ "" →
        P { name := author.name, organization := author.affiliation }) :
    ∀ a ∈ mergeAttendees attendees talks, P a := by
  unfold mergeAttendees
  refine List.foldlRecOn
    (motive := fun st : List Attendee × List String => ∀ x ∈ st.1, P x)
    talks _ _ h0 ?_
  intro st hst talk _
  refine List.foldlRecOn
    (motive := fun st : List Attendee × List String => ∀ x ∈ st.1, P x)
    talk.authors _ st hst ?_
  intro st2 hst2 author _
  by_cases hg : (author.name != "" && !(st2.2.contains (pyLower author.name))) = true
  · simp only [hg, if_true]
    intro x hx
    rcases List.mem_append.mp hx with hx1 | hx2
    · exact hst2 x hx1
    · have hx3 : x = { name := author.name, organization := author.affiliation } := by
        simpa using hx2
      subst hx3
      exact hP author (by simpa using (Bool.and_eq_true_iff.mp hg).1)
  · simp only [hg, if_false]
    exact hst2

/-- The speaker-merge loop keeps the lowercased-name list in lockstep with
the attendee list and never introduces a duplicate lowercased name. -/
theorem mergeAttendees_nodup (attendees : List Attendee) (talks : List Talk)
    (h0 : (attendees.map (fun a => pyLower a.name)).Nodup) :
    ((mergeAttendees attendees talks).map (fun a => pyLower a.name)).Nodup := by
  unfold mergeAttendees
  have key := List.foldlRecOn
    (motive := fun st : List Attendee × List String =>
      st.2 = st.1.map (fun a => pyLower a.name) ∧ st.2.Nodup)
    talks
    (fun st talk =>
      talk.authors.foldl (fun st author =>
          if author.name != "" && !(st.2.contains (pyLower author.name)) then
            (st.1 ++ [{ name := author.name, organization := author.affiliation }],
             st.2 ++ [pyLower author.name])
          else st)
        st)
    (attendees, attendees.map (fun a => pyLower a.name))
    ⟨rfl, h0⟩
    ?_
  · obtain ⟨heq, hnd⟩ := key
    rw [← heq]
    exact hnd
  · intro st hst talk _
    refine List.foldlRecOn
      (motive := fun st : List Attendee × List String =>
        st.2 = st.1.map (fun a => pyLower a.name) ∧ st.2.Nodup)
      talk.authors _ st hst ?_
    intro st2 hst2 author _
    by_cases hg : (author.name != "" && !(st2.2.contains (pyLower author.name))) = true
    · simp only [hg, if_true]
      obtain ⟨heq2, hnd2⟩ := hst2
      constructor
      · simp [heq2]
      · have hnotmem : pyLower author.name ∉ st2.2 := by
          have hc := (Bool.and_eq_true_iff.mp hg).2
          simp only [Bool.not_eq_true', List.contains] at hc
          intro hmem
          rw [(List.elem_iff).mpr hmem] at hc
          exact Bool.false_ne_true hc.symm
        simp [List.nodup_append, hnd2, hnotmem]
    · simp only [hg, if_false]
      exact hst2

/-! ## Claims -/

/-- C1: for every checker LLM response text, the final `total_flags` of
the `VerificationResult` produced by `check_report` equals the total-flag
count parsed from the response's summary block when that parsed count is
positive, and otherwise equals the number of inline `[FLAG: ...]`
annotations extracted from the response. -/
theorem check_report_total_flags_resolution
    (draft_report system_prompt : String) (bundle : Bundle)
    (client : List (String × String) → String) :
    (check_report draft_report bundle client system_prompt).total_flags =
      (if (parse_verification_summary
            (client (checkerMessages system_prompt draft_report bundle))).total_flags > 0
       then (parse_verification_summary
            (client (checkerMessages system_prompt draft_report bundle))).total_flags
       else (extract_flags
            (client (checkerMessages system_prompt draft_report bundle))).length) := rfl

/-- C2: the status of the `VerificationResult` produced by `check_report`
is the status literal parsed from the response's summary block when one
is present; when none is present, it is derived from the resolved flag
count by the fixed thresholds (0 gives PASS, 1-5 gives REVIEW NEEDED,
more than 5 gives MAJOR ISSUES); and for text lacking any summary block,
`parse_verification_summary` returns `total_flags = 0` and
`status = "UNKNOWN"` (it is a total function, so it cannot raise), and
when the text additionally contains no inline flags the final result is
PASS with zero flags. -/
theorem check_report_status_resolution :
    (∀ (draft_report system_prompt st : String) (bundle : Bundle)
       (client : List (String × String) → String),
        searchStatus (client (checkerMessages system_prompt draft_report bundle)).data
          = some st →
        (check_report draft_report bundle client system_prompt).status = st)
  ∧ (∀ (draft_report system_prompt : String) (bundle : Bundle)
       (client : List (String × String) → String),
        searchStatus (client (checkerMessages system_prompt draft_report bundle)).data
          = none →
        (check_report draft_report bundle client system_prompt).status =
          (if (check_report draft_report bundle client system_prompt).total_flags = 0
           then "PASS"
           else if (check_report draft_report bundle client system_prompt).total_flags ≤ 5
           then "REVIEW NEEDED"
           else "MAJOR ISSUES"))
  ∧ (∀ s : String,
        searchLabeledNat ("**Total flags:**".data) s.data = none →
        searchStatus s.data = none →
        (parse_verification_summary s).total_flags = 0
        ∧ (parse_verification_summary s).status = "UNKNOWN")
  ∧ (∀ (draft_report system_prompt : String) (bundle : Bundle)
       (client : List (String × String) → String),
        searchLabeledNat ("**Total flags:**".data)
          (client (checkerMessages system_prompt draft_report bundle)).data = none →
        searchStatus (client (checkerMessages system_prompt draft_report bundle)).data
          = none →
        extract_flags (client (checkerMessages system_prompt draft_report bundle)) = [] →
        (check_report draft_report bundle client system_prompt).total_flags = 0
        ∧ (check_report draft_report bundle client system_prompt).status = "PASS") := by
  refine ⟨?_, ?_, ?_, ?_⟩
  · intro draft_report system_prompt st bundle client h
    have hlit := searchStatus_literals _ _ h
    simp only [check_report, checkerMessages, parse_verification_summary] at *
    rw [h]
    simp only [Option.getD_some]
    rcases hlit with rfl | rfl | rfl <;> simp
  · intro draft_report system_prompt bundle client h
    simp only [check_report, checkerMessages, parse_verification_summary] at *
    rw [h]
    simp only [Option.getD_none, if_pos rfl]
    split <;> simp_all
  · intro s h1 h2
    simp [parse_verification_summary, h1, h2]
  · intro draft_report system_prompt bundle client h1 h2 h3
    simp only [check_report, checkerMessages, parse_verification_summary,
      extract_flags] at *
    rw [h1, h2, h3]
    simp

/-- Witness for C2 at a concrete response with no summary block and no
inline flags. -/
theorem check_report_status_resolution_witness :
    (check_report "d" { track := { id := "T", name := "N", room := none },
                        sessions := [], sources := [] }
       (fun _ => "clean text") "p").total_flags = 0
    ∧ (check_report "d" { track := { id := "T", name := "N", room := none },
                          sessions := [], sources := [] }
       (fun _ => "clean text") "p").status = "PASS" :=
  check_report_status_resolution.2.2.2 "d" "p"
    { track := { id := "T", name := "N", room := none }, sessions := [], sources := [] }
    (fun _ => "clean text") (by decide) (by decide) (by decide)

/-- A talks CSV whose data row has an empty speaker cell (column 2) but a
non-empty title: `load_lightning_talks_csv` keeps it. -/
def talksRowsWithEmptySpeaker : List (List String) :=
  [["c0", "c1", "c2", "c3", "c4", "c5", "c6", "c7"],
   ["", "", "", "Inst", "", "Title", "Abs", "Track-1"]]

/-- C3 counterexample: the loaders do not filter empty author names.  A
row with an empty speaker cell and a non-empty title is loaded as a talk
whose single author has name `""`, and that author reaches the assembled
bundle, so the claim that every talk-author name in a bundle produced by
the loaders and assembler is non-empty is false. -/
theorem bundle_empty_author_name_counterexample :
    ¬ (∀ s ∈ (assemble_track_bundle "Track-1" "Track One"
          (load_lightning_talks talksRowsWithEmptySpeaker)
          none none none).bundle.sessions,
        ∀ e ∈ s.lightning_talks, ∀ a ∈ talkEntryAuthors e, a.name ≠ "") := by
  decide

/-- C3 amended: `load_lightning_talks_csv` filters records without a
title (but not authors without a name), `load_attendees_csv` filters
records without a name, and the speaker merge only ever adds authors with
non-empty names, so all attendee names in a synthesized session are
non-empty whenever the loaded attendee list's are. -/
theorem loaded_entries_nonempty :
    (∀ (rows : List (List String)) (t : Talk),
        t ∈ load_lightning_talks rows → t.title ≠ "")
  ∧ (∀ (rows : List (List String)) (a : Attendee),
        a ∈ load_attendees rows → a.name ≠ "")
  ∧ (∀ (attendees : List Attendee) (talks : List Talk),
        (∀ b ∈ attendees, b.name ≠ "") →
        ∀ a ∈ mergeAttendees attendees talks, a.name ≠ "") := by
  refine ⟨?_, ?_, ?_⟩
  · intro rows t ht
    simp only [load_lightning_talks, List.mem_filterMap] at ht
    obtain ⟨row, _, hf⟩ := ht
    split at hf
    · simp at hf
    · split at hf
      next htitle => simp at hf
      next htitle =>
        simp only [Option.some.injEq] at hf
        rw [← hf]
        exact htitle
  · intro rows a ha
    cases rows with
    | nil => simp [load_attendees] at ha
    | cons header dataRows =>
      simp only [load_attendees, List.mem_filterMap] at ha
      obtain ⟨row, _, hf⟩ := ha
      split at hf
      next hname => simp at hf
      next hname =>
        simp only [Option.some.injEq] at hf
        rw [← hf]
        exact hname
  · intro attendees talks h0
    exact mergeAttendees_preserves (fun x => x.name ≠ "") attendees talks h0
      (fun author h => h)

/-- Witness for the amended C3 at concrete inputs. -/
theorem loaded_entries_nonempty_witness :
    (∀ t ∈ load_lightning_talks talksRowsWithEmptySpeaker, t.title ≠ "")
    ∧ (∀ a ∈ mergeAttendees [{ name := "Alice", organization := "O" }]
          [{ title := "T", authors := [{ name := "Bob", affiliation := "B" }],
             abstract := "", track := "Track-1" }], a.name ≠ "") :=
  ⟨fun t ht => loaded_entries_nonempty.1 talksRowsWithEmptySpeaker t ht,
   fun a ha => loaded_entries_nonempty.2.2
     [{ name := "Alice", organization := "O" }] _ (by decide) a ha⟩

/-- An attendees CSV containing the same name twice. -/
def duplicateAttendeeRows : List (List String) :=
  [["Name", "Organization"], ["Alice", "A"], ["Alice", "B"]]

/-- A track-inputs directory holding that CSV. -/
def duplicateAttendeeInputs : TrackInputs :=
  { dirName := "inputs/Track-1",
    csvFiles := [("attendees.csv", duplicateAttendeeRows)],
    textFiles := [] }

/-- C4 counterexample: the assembler never deduplicates the explicitly
supplied attendee list itself, so an attendees CSV naming `Alice` twice
produces a synthesized session whose attendee list has two entries with
equal lowercased names, refuting the general no-duplicates part of the
claim. -/
theorem session_attendee_duplicate_counterexample :
    ¬ (∀ s ∈ (assemble_track_bundle "Track-1" "Track One" []
          (some duplicateAttendeeInputs) none none).bundle.sessions,
        (s.attendees.map (fun e => pyLower (attendeeEntryName e))).Nodup) := by
  decide

/-- C4 amended: the speaker merge itself is idempotent under
case-insensitive name identity — merging two talks naming the same author
(up to case) into an attendee list of size K that does not already
contain that name yields size K+1, not K+2 — and the resulting attendee
list has no two entries with equal lowercased names provided the supplied
attendee list had none (the merge never introduces a duplicate; it does
not deduplicate a supplied list). -/
theorem attendee_merge_idempotent :
    (∀ (attendees : List Attendee) (t1 t2 : Talk) (au1 au2 : Author),
        t1.authors = [au1] → t2.authors = [au2] →
        au1.name ≠ "" → au2.name ≠ "" →
        pyLower au2.name = pyLower au1.name →
        pyLower au1.name ∉ attendees.map (fun a => pyLower a.name) →
        (mergeAttendees attendees [t1, t2]).length = attendees.length + 1)
  ∧ (∀ (attendees : List Attendee) (talks : List Talk),
        (attendees.map (fun a => pyLower a.name)).Nodup →
        ((mergeAttendees attendees talks).map (fun a => pyLower a.name)).Nodup) := by
  constructor
  · intro attendees t1 t2 au1 au2 h1 h2 hn1 hn2 hl hnm
    have hc1 : ((attendees.map fun a => pyLower a.name).contains
        (pyLower au1.name)) = false := by
      simp only [List.contains]
      cases hb : List.elem (pyLower au1.name) (attendees.map fun a => pyLower a.name)
      · rfl
      · exact absurd (List.elem_iff.mp hb) hnm
    unfold mergeAttendees
    simp only [List.foldl_cons, List.foldl_nil, h1, h2, hc1, hn1,
      bne_iff_ne, ne_eq, not_false_eq_true, Bool.not_false, Bool.and_true,
      if_true, decide_not]
    have hc2 : (((attendees.map fun a => pyLower a.name)
        ++ [pyLower au1.name]).contains (pyLower au2.name)) = true := by
      simp only [List.contains]
      exact List.elem_iff.mpr (by rw [hl]; exact List.mem_append_right _ (by simp))
    rw [if_neg]
    · simp
    · rw [hc2]
      simp
  · intro attendees talks h0
    exact mergeAttendees_nodup attendees talks h0

/-- Witness for the amended C4 at a concrete case-varying duplicate. -/
theorem attendee_merge_idempotent_witness :
    (mergeAttendees [{ name := "Carol", organization := "C" }]
        [{ title := "T1", authors := [{ name := "Dave", affiliation := "D" }],
           abstract := "", track := "X" },
         { title := "T2", authors := [{ name := "DAVE", affiliation := "E" }],
           abstract := "", track := "X" }]).length = 2 :=
  attendee_merge_idempotent.1 [{ name := "Carol", organization := "C" }] _ _ _ _
    rfl rfl (by decide) (by decide) (by decide) (by decide)

/-- C5: with no predefined sessions, the bundle's single synthesized
session contains exactly the talks whose track tag equals the requested
track, and the warning list contains exactly one no-lightning-talks
warning when that filtered list is empty and none otherwise (assembly
still returns a bundle either way, as `assemble_track_bundle` is total). -/
theorem assemble_track_talks_and_no_talks_warning
    (track_id track_name : String) (lightning_talks : List Talk)
    (dir : Option TrackInputs) (room : Option String) :
    ((assemble_track_bundle track_id track_name lightning_talks dir room
        none).bundle.sessions.map Session.lightning_talks)
      = [(lightning_talks.filter (fun t => t.track = track_id)).map TalkEntry.obj]
    ∧ ((assemble_track_bundle track_id track_name lightning_talks dir room
        none).warnings.filter
          (fun w => w.message == "No lightning talks found for track " ++ track_id)).length
      = (if (lightning_talks.filter (fun t => t.track = track_id)).isEmpty
         then 1 else 0) := by
  constructor
  · simp [assemble_track_bundle]
  · simp only [assemble_track_bundle, List.filter_append, List.length_append]
    have hatt : ∀ d : TrackInputs,
        (("No attendees file found in " ++ d.dirName)
          == "No lightning talks found for track " ++ track_id) = false := by
      intro d
      exact beq_eq_false_iff_ne.mpr (attendees_msg_ne_noTalks _ _)
    have hnotes : ∀ d : TrackInputs,
        (("No notes file found in " ++ d.dirName)
          == "No lightning talks found for track " ++ track_id) = false := by
      intro d
      exact beq_eq_false_iff_ne.mpr (notes_msg_ne_noTalks _ _)
    rcases dir with _ | d
    · split <;> simp_all
    · dsimp only
      split <;> split <;> split <;> simp_all

/-- C10: a non-empty predefined sessions argument is passed through
verbatim: the returned bundle consists of the track header, exactly the
supplied sessions, and the sources list; the loaded attendees, notes and
filtered talks appear nowhere in it, while the warnings are the same as
for a call without predefined sessions. -/
theorem assemble_predefined_sessions_pass_through
    (track_id track_name : String) (lightning_talks : List Talk)
    (dir : Option TrackInputs) (room : Option String)
    (ss : List Session) (h : ss ≠ []) :
    (assemble_track_bundle track_id track_name lightning_talks dir room
        (some ss)).bundle
      = { track := { id := track_id, name := track_name, room := room },
          sessions := ss,
          sources := (match dir with
                      | none => []
                      | some d => ["Track inputs: " ++ d.dirName]) }
    ∧ (assemble_track_bundle track_id track_name lightning_talks dir room
        (some ss)).warnings
      = (assemble_track_bundle track_id track_name lightning_talks dir room
          none).warnings := by
  have hss : ss.isEmpty = false := by
    cases ss with
    | nil => exact absurd rfl h
    | cons a l => rfl
  constructor
  · simp [assemble_track_bundle, hss]
  · rfl

/-- Witness for C10 at a concrete non-empty sessions list. -/
theorem assemble_predefined_sessions_pass_through_witness :
    (assemble_track_bundle "Track-1" "Track One" [] none none
        (some [{ id := "s1", title := "S", slot := none, leaders := [],
                 lightning_talks := [], attendees := [], notes := none }])).bundle
      = { track := { id := "Track-1", name := "Track One", room := none },
          sessions := [{ id := "s1", title := "S", slot := none, leaders := [],
                         lightning_talks := [], attendees := [], notes := none }],
          sources := [] }
    ∧ (assemble_track_bundle "Track-1" "Track One" [] none none
        (some [{ id := "s1", title := "S", slot := none, leaders := [],
                 lightning_talks := [], attendees := [], notes := none }])).warnings
      = (assemble_track_bundle "Track-1" "Track One" [] none none none).warnings :=
  assemble_predefined_sessions_pass_through "Track-1" "Track One" [] none none _
    (by simp)

/-- C6: file absence is handled per the required/optional rule:
`load_lightning_talks_csv` on a missing path signals a file-not-found
error, `load_attendees_csv` returns the empty list, and
`load_notes_file` returns `none`. -/
theorem load_absent_file_behavior (p1 p2 p3 : String) :
    load_lightning_talks_csv p1 none
      = Except.error ("Lightning talks CSV not found: " ++ p1)
    ∧ load_attendees_csv p2 none = []
    ∧ load_notes_file p3 none = none :=
  ⟨rfl, rfl, rfl⟩

/-- C8: bundle rendering is deterministic: two applications of
`format_track_bundle` to the same bundle value produce byte-for-byte
identical text.  In this embedding `format_track_bundle` is a pure
function of the bundle value (the source consults no state, iterates
lists in order and uses no nondeterministic constructs), so the checker's
independent re-rendering of the bundle coincides with the generator's. -/
theorem format_track_bundle_deterministic (b1 b2 : Bundle) (h : b1 = b2) :
    format_track_bundle b1 = format_track_bundle b2 := by rw [h]

/-- Witness for C8 at a concrete bundle. -/
theorem format_track_bundle_deterministic_witness :
    format_track_bundle
        { track := { id := "T", name := "N", room := some "R" },
          sessions := [], sources := ["s"] }
      = format_track_bundle
        { track := { id := "T", name := "N", room := some "R" },
          sessions := [], sources := ["s"] } :=
  format_track_bundle_deterministic _ _ rfl

/-! ## C7: structured texts for extract_flags

A checker response is modelled as a sequence of segments: plain text
containing no `[`, and well-formed inline annotations — either quoted
`[FLAG: <type> "<description>"]` or unquoted `[FLAG: <content>]` (the
description quoting is optional in the source pattern; when it is
absent the optional group stays unmatched, so the whole bracket content
becomes group 1 and `re.findall` reports the description as `""`). -/

/-- A segment of a checker response: plain text, a quoted annotation
`[FLAG: <t> "<d>"]`, or an unquoted annotation `[FLAG: <t>]`. -/
inductive FlagSeg where
  | text (s : String)
  | flag (t d : String)
  | flagU (t : String)
deriving Repr, DecidableEq

/-- The characters of one segment. -/
def renderSegChars : FlagSeg → List Char
  | FlagSeg.text s => s.data
  | FlagSeg.flag t d =>
    '[' :: 'F' :: 'L' :: 'A' :: 'G' :: ':' :: ' '
      :: (t.data ++ ' ' :: '"' :: (d.data ++ ['"', ']']))
  | FlagSeg.flagU t =>
    '[' :: 'F' :: 'L' :: 'A' :: 'G' :: ':' :: ' ' :: (t.data ++ [']'])

/-- The characters of a whole segmented response. -/
def renderSegs : List FlagSeg → List Char
  | [] => []
  | seg :: rest => renderSegChars seg ++ renderSegs rest

/-- The segmented response as a string. -/
def renderSegsStr (segs : List FlagSeg) : String := String.mk (renderSegs segs)

/-- The annotations of a segmented response, in order of appearance; an
unquoted annotation contributes its whole content as the type with an
empty description, exactly as `re.findall` reports an unmatched group. -/
def flagsOfSegs : List FlagSeg → List Flag
  | [] => []
  | FlagSeg.text _ :: rest => flagsOfSegs rest
  | FlagSeg.flag t d :: rest => { type := t, description := d } :: flagsOfSegs rest
  | FlagSeg.flagU t :: rest => { type := t, description := "" } :: flagsOfSegs rest

/-- Whether the literal `[FLAG:` occurs anywhere in the text, as a
contiguous substring. -/
def containsFlagLit : List Char → Bool
  | [] => false
  | c :: r => ("[FLAG:".data).isPrefixOf (c :: r) || containsFlagLit r

/-- The first character, when present, is not whitespace. -/
def headNotSpaceB (l : List Char) : Bool :=
  match l.head? with
  | some c => !(pyIsSpace c)
  | none => true

/-- The last character, when present, is not whitespace. -/
def lastNotSpaceB (l : List Char) : Bool :=
  match l.getLast? with
  | some c => !(pyIsSpace c)
  | none => true

/-- The character fragment on which the embedding's ASCII whitespace
model (`pyIsSpace`, `stripChars`) coincides with CPython: the whitespace
characters tab through carriage return (code points 9-13) and the
printable ASCII range (32-126).  CPython's `\s` and `str.strip`
additionally treat the separators `\x1c`-`\x1f` and various non-ASCII
code points (e.g. U+00A0) as whitespace, which `pyIsSpace` does not, so
annotation types are kept inside this fragment. -/
def asciiFragChar (c : Char) : Bool :=
  (9 ≤ c.toNat && c.toNat ≤ 13) || (32 ≤ c.toNat && c.toNat ≤ 126)

/-- Well-formedness of a segment: plain text contains no `[`; an
annotation has a non-empty type free of `"` and `]` that neither starts
nor ends with whitespace and stays inside the ASCII fragment on which
the whitespace model matches CPython; a quoted annotation additionally
has a non-empty description free of `"` (the description is matched by
the class `[^"]`, a character-equality test faithful for any character,
so it needs no fragment restriction; nor does plain text, which the scan
only ever compares against the literal `[FLAG:`). -/
def wfSeg : FlagSeg → Prop
  | FlagSeg.text s => ∀ c ∈ s.data, c ≠ '['
  | FlagSeg.flag t d =>
    t.data ≠ [] ∧ (∀ c ∈ t.data, c ≠ '"' ∧ c ≠ ']')
    ∧ headNotSpaceB t.data = true ∧ lastNotSpaceB t.data = true
    ∧ (∀ c ∈ t.data, asciiFragChar c = true)
    ∧ d.data ≠ [] ∧ (∀ c ∈ d.data, c ≠ '"')
  | FlagSeg.flagU t =>
    t.data ≠ [] ∧ (∀ c ∈ t.data, c ≠ '"' ∧ c ≠ ']')
    ∧ headNotSpaceB t.data = true ∧ lastNotSpaceB t.data = true
    ∧ (∀ c ∈ t.data, asciiFragChar c = true)

instance wfSeg.decidable (seg : FlagSeg) : Decidable (wfSeg seg) := by
  cases seg with
  | text s => exact inferInstanceAs (Decidable (∀ c ∈ s.data, c ≠ '['))
  | flag t d =>
    exact inferInstanceAs (Decidable
      (t.data ≠ [] ∧ (∀ c ∈ t.data, c ≠ '"' ∧ c ≠ ']')
        ∧ headNotSpaceB t.data = true ∧ lastNotSpaceB t.data = true
        ∧ (∀ c ∈ t.data, asciiFragChar c = true)
        ∧ d.data ≠ [] ∧ (∀ c ∈ d.data, c ≠ '"')))
  | flagU t =>
    exact inferInstanceAs (Decidable
      (t.data ≠ [] ∧ (∀ c ∈ t.data, c ≠ '"' ∧ c ≠ ']')
        ∧ headNotSpaceB t.data = true ∧ lastNotSpaceB t.data = true
        ∧ (∀ c ∈ t.data, asciiFragChar c = true)))

theorem headNotSpaceB_spec (l : List Char) (h : headNotSpaceB l = true) :
    ∀ c, l.head? = some c → pyIsSpace c = false := by
  intro c hc
  unfold headNotSpaceB at h
  rw [hc] at h
  simpa using h

theorem lastNotSpaceB_spec (l : List Char) (h : lastNotSpaceB l = true) :
    ∀ c, l.getLast? = some c → pyIsSpace c = false := by
  intro c hc
  unfold lastNotSpaceB at h
  rw [hc] at h
  simpa using h

theorem string_mk_data (s : String) : String.mk s.data = s := by
  cases s
  rfl

theorem dropWhile_head_not (p : Char → Bool) (l : List Char)
    (h : ∀ c, l.head? = some c → p c = false) : l.dropWhile p = l := by
  cases l with
  | nil => rfl
  | cons c r =>
    have := h c rfl
    simp [List.dropWhile, this]

theorem stripChars_eq_self (l : List Char)
    (h1 : ∀ c, l.head? = some c → pyIsSpace c = false)
    (h2 : ∀ c, l.getLast? = some c → pyIsSpace c = false) :
    stripChars l = l := by
  unfold stripChars
  rw [dropWhile_head_not _ _ h1]
  rw [dropWhile_head_not _ _ (fun c hc => h2 c (by rwa [List.head?_reverse] at hc))]
  exact List.reverse_reverse l

theorem span_append (p : Char → Bool) (d : List Char)
    (hall : ∀ c ∈ d, p c = true) (x : Char) (hx : p x = false) (xs : List Char) :
    (d ++ x :: xs).takeWhile p = d ∧ (d ++ x :: xs).dropWhile p = x :: xs := by
  induction d with
  | nil => simp [List.takeWhile, List.dropWhile, hx]
  | cons c r ih =>
    have hc : p c = true := hall c (by simp)
    have := ih (fun c hc2 => hall c (by simp [hc2]))
    simp [List.takeWhile, List.dropWhile, hc, this]

theorem tryQuoted_head_ne (l : List Char) (c : Char)
    (h : l.head? = some c) (hc : c ≠ '"') : tryQuoted l = none := by
  cases l with
  | nil => rfl
  | cons a r =>
    obtain rfl : a = c := by simpa using h
    simp [tryQuoted, hc]

theorem wsRun_cons_not (c : Char) (l : List Char) (h : pyIsSpace c = false) :
    wsRun (c :: l) = 0 := by
  simp [wsRun, h]

theorem wsRun_append_lt (t : List Char) (xs : List Char) (ht : t ≠ [])
    (hl : ∀ c, t.getLast? = some c → pyIsSpace c = false) :
    wsRun (t ++ xs) < t.length := by
  induction t with
  | nil => exact absurd rfl ht
  | cons c r ih =>
    cases r with
    | nil =>
      have hc : pyIsSpace c = false := hl c rfl
      simp [wsRun, hc]
    | cons c2 r2 =>
      by_cases hc : pyIsSpace c = true
      · have hlt := ih (by simp) (fun x hx => hl x (by simpa using hx))
        have hstep : wsRun ((c :: c2 :: r2) ++ xs) = wsRun ((c2 :: r2) ++ xs) + 1 := by
          rw [List.cons_append]
          simp [wsRun, hc]
        rw [hstep]
        simp only [List.length_cons] at hlt ⊢
        omega
      · simp only [List.cons_append, wsRun, Bool.not_eq_true] at hc ⊢
        rw [hc]
        simp

/-- While the scanner is still inside the annotation type, the optional
group cannot fire: every whitespace backtrack lands on a type character,
which is never `"`. -/
theorem tryOpt_append_none (t xs : List Char) (htc : ∀ c ∈ t, c ≠ '"') :
    ∀ n, n < t.length → tryOpt n (t ++ xs) = none := by
  intro n
  induction n with
  | zero => intro _; rfl
  | succ m ih =>
    intro hlt
    have hdrop : (t ++ xs).drop (m + 1) = t.drop (m + 1) ++ xs :=
      List.drop_append_of_le_length (by omega)
    obtain ⟨c, rest2, hcr⟩ : ∃ c rest2, t.drop (m + 1) = c :: rest2 := by
      cases hD : t.drop (m + 1) with
      | nil =>
        rw [List.drop_eq_nil_iff] at hD
        omega
      | cons c rest2 => exact ⟨c, rest2, rfl⟩
    have hcmem : c ∈ t := List.mem_of_mem_drop (l := t) (by rw [hcr]; simp)
    unfold tryOpt
    rw [hdrop, hcr]
    simp only [List.cons_append]
    rw [tryQuoted_head_ne (c :: (rest2 ++ xs)) c rfl (htc c hcmem)]
    exact ih (by omega)

/-- The lazy group-1 walk over a well-formed annotation consumes exactly
the type and then closes on the quoted description. -/
theorem group1Loop_annot (d rest : List Char) (hd : d ≠ [])
    (hdc : ∀ c ∈ d, c ≠ '"') :
    ∀ (t acc : List Char), t ≠ [] →
      (∀ c ∈ t, c ≠ '"' ∧ c ≠ ']') →
      (∀ c, t.getLast? = some c → pyIsSpace c = false) →
      group1Loop acc (t ++ ' ' :: '"' :: (d ++ '"' :: ']' :: rest))
        = some (acc ++ t, d, rest) := by
  intro t
  induction t with
  | nil => intro acc h; exact absurd rfl h
  | cons c t2 ih =>
    intro acc _ htc htl
    have hc := htc c (by simp)
    have hflag : flagTypeChar c = true := by
      simp [flagTypeChar, hc.1, hc.2]
    cases t2 with
    | nil =>
      have hspan := span_append (fun x => x != '"') d
        (fun x hx => by simp [bne_iff_ne, hdc x hx]) '"' (by simp) (']' :: rest)
      have hq : tryQuoted ('"' :: (d ++ '"' :: ']' :: rest)) = some (d, rest) := by
        simp [tryQuoted, hspan.1, hspan.2, List.isEmpty_iff, hd]
      have hcont : tryCont (acc ++ [c]) (' ' :: '"' :: (d ++ '"' :: ']' :: rest))
          = some (acc ++ [c], d, rest) := by
        have hws : wsRun (' ' :: '"' :: (d ++ '"' :: ']' :: rest)) = 1 := by
          simp [wsRun, show pyIsSpace ' ' = true from rfl,
            show pyIsSpace '"' = false from rfl]
        unfold tryCont
        rw [hws]
        unfold tryOpt
        simp only [List.drop_succ_cons, List.drop_zero]
        rw [hq]
      simp only [List.cons_append, List.nil_append]
      unfold group1Loop
      rw [hflag]
      simp only [if_true]
      rw [hcont]
    | cons c3 t3 =>
      have hc2 := htc c3 (by simp)
      have hcont_none : tryCont (acc ++ [c])
          ((c3 :: t3) ++ ' ' :: '"' :: (d ++ '"' :: ']' :: rest)) = none := by
        have hopt : tryOpt (wsRun ((c3 :: t3) ++ ' ' :: '"' :: (d ++ '"' :: ']' :: rest)))
            ((c3 :: t3) ++ ' ' :: '"' :: (d ++ '"' :: ']' :: rest)) = none := by
          apply tryOpt_append_none (c3 :: t3) _
            (fun x hx => (htc x (by simp [hx])).1)
          apply wsRun_append_lt _ _ (by simp)
          intro x hx
          exact htl x (by rwa [List.getLast?_cons_cons])
        unfold tryCont
        rw [hopt]
        simp only [List.cons_append]
        simp [hc2.2]
      have hih := ih (acc ++ [c]) (by simp)
        (fun x hx => htc x (List.mem_cons_of_mem _ hx))
        (fun x hx => htl x (by rwa [List.getLast?_cons_cons]))
      simp only [List.cons_append]
      unfold group1Loop
      rw [hflag]
      simp only [if_true]
      rw [show ((c3 :: t3) ++ ' ' :: '"' :: (d ++ '"' :: ']' :: rest))
          = c3 :: (t3 ++ ' ' :: '"' :: (d ++ '"' :: ']' :: rest)) from rfl] at hcont_none
      rw [hcont_none]
      rw [show (acc ++ [c]) ++ (c3 :: t3) = acc ++ (c :: c3 :: t3) by simp] at hih
      exact hih

/-- A well-formed annotation at the head of the input matches, binding
exactly its type and description and resuming right after its `]`. -/
theorem matchFlagAt_annot (t d rest : List Char) (ht : t ≠ [])
    (htc : ∀ c ∈ t, c ≠ '"' ∧ c ≠ ']')
    (hth : ∀ c, t.head? = some c → pyIsSpace c = false)
    (htl : ∀ c, t.getLast? = some c → pyIsSpace c = false)
    (hd : d ≠ []) (hdc : ∀ c ∈ d, c ≠ '"') :
    matchFlagAt ('[' :: 'F' :: 'L' :: 'A' :: 'G' :: ':' :: ' '
        :: (t ++ ' ' :: '"' :: (d ++ '"' :: ']' :: rest)))
      = some (t, d, rest) := by
  obtain ⟨c0, t0, rfl⟩ : ∃ c0 t0, t = c0 :: t0 := by
    cases t with
    | nil => exact absurd rfl ht
    | cons c0 t0 => exact ⟨c0, t0, rfl⟩
  have hc0head : pyIsSpace c0 = false := hth c0 rfl
  unfold matchFlagAt
  rw [if_pos (by simp [List.isPrefixOf])]
  simp only [List.drop_succ_cons, List.drop_zero]
  have hws : wsRun (' ' :: ((c0 :: t0) ++ ' ' :: '"' :: (d ++ '"' :: ']' :: rest))) = 1 := by
    simp [wsRun, show pyIsSpace ' ' = true from rfl, hc0head]
  rw [hws]
  unfold tryWs
  simp only [List.drop_succ_cons, List.drop_zero]
  rw [group1Loop_annot d rest hd hdc (c0 :: t0) [] (by simp) htc htl]
  simp

/-- The lazy group-1 walk over an unquoted annotation consumes exactly
the content and then closes on the bare `]`: the optional group never
fires, because every whitespace backtrack lands on a content character,
which is never `"`. -/
theorem group1Loop_unquoted (rest : List Char) :
    ∀ (t acc : List Char), t ≠ [] →
      (∀ c ∈ t, c ≠ '"' ∧ c ≠ ']') →
      (∀ c, t.getLast? = some c → pyIsSpace c = false) →
      group1Loop acc (t ++ ']' :: rest) = some (acc ++ t, [], rest) := by
  intro t
  induction t with
  | nil => intro acc h; exact absurd rfl h
  | cons c t2 ih =>
    intro acc _ htc htl
    have hc := htc c (by simp)
    have hflag : flagTypeChar c = true := by
      simp [flagTypeChar, hc.1, hc.2]
    cases t2 with
    | nil =>
      have hcont : tryCont (acc ++ [c]) (']' :: rest)
          = some (acc ++ [c], [], rest) := by
        have hws : wsRun (']' :: rest) = 0 :=
          wsRun_cons_not ']' rest (by decide)
        unfold tryCont
        rw [hws]
        rw [show tryOpt 0 (']' :: rest) = none from rfl]
        simp
      simp only [List.cons_append, List.nil_append]
      unfold group1Loop
      rw [hflag]
      simp only [if_true]
      rw [hcont]
    | cons c3 t3 =>
      have hc2 := htc c3 (by simp)
      have hcont_none : tryCont (acc ++ [c]) ((c3 :: t3) ++ ']' :: rest) = none := by
        have hopt : tryOpt (wsRun ((c3 :: t3) ++ ']' :: rest))
            ((c3 :: t3) ++ ']' :: rest) = none := by
          apply tryOpt_append_none (c3 :: t3) _
            (fun x hx => (htc x (by simp [hx])).1)
          apply wsRun_append_lt _ _ (by simp)
          intro x hx
          exact htl x (by rwa [List.getLast?_cons_cons])
        unfold tryCont
        rw [hopt]
        simp only [List.cons_append]
        simp [hc2.2]
      have hih := ih (acc ++ [c]) (by simp)
        (fun x hx => htc x (List.mem_cons_of_mem _ hx))
        (fun x hx => htl x (by rwa [List.getLast?_cons_cons]))
      simp only [List.cons_append]
      unfold group1Loop
      rw [hflag]
      simp only [if_true]
      rw [show ((c3 :: t3) ++ ']' :: rest)
          = c3 :: (t3 ++ ']' :: rest) from rfl] at hcont_none
      rw [hcont_none]
      rw [show (acc ++ [c]) ++ (c3 :: t3) = acc ++ (c :: c3 :: t3) by simp] at hih
      exact hih

/-- An unquoted well-formed annotation at the head of the input matches,
binding its whole content as group 1 with group 2 unmatched. -/
theorem matchFlagAt_unquoted (t rest : List Char) (ht : t ≠ [])
    (htc : ∀ c ∈ t, c ≠ '"' ∧ c ≠ ']')
    (hth : ∀ c, t.head? = some c → pyIsSpace c = false)
    (htl : ∀ c, t.getLast? = some c → pyIsSpace c = false) :
    matchFlagAt ('[' :: 'F' :: 'L' :: 'A' :: 'G' :: ':' :: ' '
        :: (t ++ ']' :: rest))
      = some (t, [], rest) := by
  obtain ⟨c0, t0, rfl⟩ : ∃ c0 t0, t = c0 :: t0 := by
    cases t with
    | nil => exact absurd rfl ht
    | cons c0 t0 => exact ⟨c0, t0, rfl⟩
  have hc0head : pyIsSpace c0 = false := hth c0 rfl
  unfold matchFlagAt
  rw [if_pos (by simp [List.isPrefixOf])]
  simp only [List.drop_succ_cons, List.drop_zero]
  have hws : wsRun (' ' :: ((c0 :: t0) ++ ']' :: rest)) = 1 := by
    simp [wsRun, show pyIsSpace ' ' = true from rfl, hc0head]
  rw [hws]
  unfold tryWs
  simp only [List.drop_succ_cons, List.drop_zero]
  rw [group1Loop_unquoted rest (c0 :: t0) [] (by simp) htc htl]
  simp

theorem extractFlagsAux_nil (fuel : Nat) : extractFlagsAux fuel [] = [] := by
  cases fuel <;> rfl

/-- At a character other than `[` the pattern cannot match. -/
theorem matchFlagAt_not_bracket (c : Char) (l : List Char) (hc : c ≠ '[') :
    matchFlagAt (c :: l) = none := by
  unfold matchFlagAt
  rw [if_neg]
  rw [show ("[FLAG:".data) = '[' :: "FLAG:".data from rfl]
  simp only [List.isPrefixOf, Bool.and_eq_true_iff, not_and]
  intro hp
  exact absurd (eq_of_beq hp).symm hc

/-- Scanning across bracket-free text reaches the remainder unchanged,
spending one unit of fuel per character. -/
theorem extractFlagsAux_skip (s : List Char) : ∀ (fuel : Nat) (rest : List Char),
    (∀ c ∈ s, c ≠ '[') → s.length + rest.length ≤ fuel →
    extractFlagsAux fuel (s ++ rest) = extractFlagsAux (fuel - s.length) rest := by
  induction s with
  | nil => intro fuel rest _ _; simp
  | cons c s2 ih =>
    intro fuel rest hc hlen
    cases fuel with
    | zero => simp at hlen
    | succ f =>
      have hm := matchFlagAt_not_bracket c (s2 ++ rest) (hc c (by simp))
      simp only [List.cons_append, extractFlagsAux, List.append_eq, hm]
      rw [ih f rest (fun x hx => hc x (by simp [hx])) (by simp at hlen; omega)]
      congr 1
      simp [Nat.succ_sub_succ]

/-- Scanning at a well-formed annotation emits exactly its flag (with the
type stripped, which leaves it unchanged) and resumes after its `]`. -/
theorem extractFlagsAux_annot (t d : String) (rest : List Char) (f : Nat)
    (h1 : t.data ≠ []) (h2 : ∀ c ∈ t.data, c ≠ '"' ∧ c ≠ ']')
    (h3 : headNotSpaceB t.data = true) (h4 : lastNotSpaceB t.data = true)
    (h5 : d.data ≠ []) (h6 : ∀ c ∈ d.data, c ≠ '"') :
    extractFlagsAux (f + 1) (renderSegChars (FlagSeg.flag t d) ++ rest)
      = { type := t, description := d } :: extractFlagsAux f rest := by
  have hassoc : renderSegChars (FlagSeg.flag t d) ++ rest
      = '[' :: 'F' :: 'L' :: 'A' :: 'G' :: ':' :: ' '
          :: (t.data ++ ' ' :: '"' :: (d.data ++ '"' :: ']' :: rest)) := by
    simp [renderSegChars]
  rw [hassoc]
  have hm := matchFlagAt_annot t.data d.data rest h1 h2
    (headNotSpaceB_spec _ h3) (lastNotSpaceB_spec _ h4) h5 h6
  simp only [extractFlagsAux, hm]
  rw [stripChars_eq_self t.data (headNotSpaceB_spec _ h3) (lastNotSpaceB_spec _ h4),
    string_mk_data, string_mk_data]

/-- Scanning at a well-formed unquoted annotation emits its whole
content as the flag type with an empty description (the optional group
is unmatched) and resumes after its `]`. -/
theorem extractFlagsAux_unquoted (t : String) (rest : List Char) (f : Nat)
    (h1 : t.data ≠ []) (h2 : ∀ c ∈ t.data, c ≠ '"' ∧ c ≠ ']')
    (h3 : headNotSpaceB t.data = true) (h4 : lastNotSpaceB t.data = true) :
    extractFlagsAux (f + 1) (renderSegChars (FlagSeg.flagU t) ++ rest)
      = { type := t, description := "" } :: extractFlagsAux f rest := by
  have hassoc : renderSegChars (FlagSeg.flagU t) ++ rest
      = '[' :: 'F' :: 'L' :: 'A' :: 'G' :: ':' :: ' '
          :: (t.data ++ ']' :: rest) := by
    simp [renderSegChars]
  rw [hassoc]
  have hm := matchFlagAt_unquoted t.data rest h1 h2
    (headNotSpaceB_spec _ h3) (lastNotSpaceB_spec _ h4)
  simp only [extractFlagsAux, hm]
  rw [stripChars_eq_self t.data (headNotSpaceB_spec _ h3) (lastNotSpaceB_spec _ h4),
    string_mk_data]

/-- Text without any occurrence of the literal `[FLAG:` scans to the
empty list: the pattern can match at no position. -/
theorem extractFlagsAux_no_lit (cs : List Char) : ∀ fuel,
    containsFlagLit cs = false → extractFlagsAux fuel cs = [] := by
  induction cs with
  | nil => intro fuel _; exact extractFlagsAux_nil fuel
  | cons c r ih =>
    intro fuel h
    unfold containsFlagLit at h
    rw [Bool.or_eq_false_iff] at h
    cases fuel with
    | zero => rfl
    | succ f =>
      have hm : matchFlagAt (c :: r) = none := by
        unfold matchFlagAt
        rw [if_neg]
        simp [h.1]
      simp only [extractFlagsAux, hm]
      exact ih f h.2

/-- The full scan of a well-formed segmented response returns exactly its
annotations, in order. -/
theorem extractFlagsAux_segs : ∀ (segs : List FlagSeg) (fuel : Nat),
    (∀ seg ∈ segs, wfSeg seg) → (renderSegs segs).length ≤ fuel →
    extractFlagsAux fuel (renderSegs segs) = flagsOfSegs segs := by
  intro segs
  induction segs with
  | nil => intro fuel _ _; simp [renderSegs, extractFlagsAux_nil, flagsOfSegs]
  | cons seg segs2 ih =>
    intro fuel hwf hlen
    match seg with
    | FlagSeg.text s =>
      have hs : ∀ c ∈ s.data, c ≠ '[' := hwf (FlagSeg.text s) (by simp)
      have hlen2 : s.data.length + (renderSegs segs2).length ≤ fuel := by
        simpa [renderSegs, renderSegChars] using hlen
      rw [show renderSegs (FlagSeg.text s :: segs2)
          = s.data ++ renderSegs segs2 from rfl]
      rw [extractFlagsAux_skip s.data fuel (renderSegs segs2) hs hlen2]
      rw [ih (fuel - s.data.length) (fun x hx => hwf x (by simp [hx])) (by omega)]
      rfl
    | FlagSeg.flag t d =>
      obtain ⟨h1, h2, h3, h4, _, h5, h6⟩ := hwf (FlagSeg.flag t d) (by simp)
      have hlen2 : (renderSegChars (FlagSeg.flag t d)).length
          + (renderSegs segs2).length ≤ fuel := by
        simpa [renderSegs] using hlen
      have hlong : 1 ≤ (renderSegChars (FlagSeg.flag t d)).length := by
        simp [renderSegChars]
      cases fuel with
      | zero => omega
      | succ f =>
        rw [show renderSegs (FlagSeg.flag t d :: segs2)
            = renderSegChars (FlagSeg.flag t d) ++ renderSegs segs2 from rfl]
        rw [extractFlagsAux_annot t d (renderSegs segs2) f h1 h2 h3 h4 h5 h6]
        rw [ih f (fun x hx => hwf x (by simp [hx])) (by omega)]
        rfl
    | FlagSeg.flagU t =>
      obtain ⟨h1, h2, h3, h4, _⟩ := hwf (FlagSeg.flagU t) (by simp)
      have hlen2 : (renderSegChars (FlagSeg.flagU t)).length
          + (renderSegs segs2).length ≤ fuel := by
        simpa [renderSegs] using hlen
      have hlong : 1 ≤ (renderSegChars (FlagSeg.flagU t)).length := by
        simp [renderSegChars]
      cases fuel with
      | zero => omega
      | succ f =>
        rw [show renderSegs (FlagSeg.flagU t :: segs2)
            = renderSegChars (FlagSeg.flagU t) ++ renderSegs segs2 from rfl]
        rw [extractFlagsAux_unquoted t (renderSegs segs2) f h1 h2 h3 h4]
        rw [ih f (fun x hx => hwf x (by simp [hx])) (by omega)]
        rfl

/-- C7 counterexample: the claim that malformed annotations always yield
an empty list is false: on `[FLAG:  ]` the backtracking engine matches
with a whitespace-only group 1, so `extract_flags` returns one flag with
an empty (stripped) type rather than the empty list. -/
theorem extract_flags_malformed_counterexample :
    extract_flags "[FLAG:  ]" = [{ type := "", description := "" }]
    ∧ extract_flags "[FLAG:  ]" ≠ [] := by
  constructor
  · decide
  · decide

/-- C7 amended: on a response made of bracket-free text segments and
well-formed annotations — quoted `[FLAG: <type> "<description>"]` or
unquoted `[FLAG: <content>]`, the description quoting being optional —
`extract_flags` returns exactly the annotations in order of appearance
with the written literals: a quoted annotation yields its type and
description, an unquoted one yields its whole content as the type with
an empty description (the pattern's optional group is unmatched); text
that never contains the substring `[FLAG:` yields the empty list; and
`extract_flags` is a total function, so it never raises.  Annotation
types range over the character fragment on which the embedding's ASCII
whitespace model coincides with CPython's `\s` and `str.strip`.
(Degenerate annotations that still match the lenient pattern, such as a
whitespace-only type, yield an entry rather than being dropped — see
the counterexample.) -/
theorem extract_flags_wellformed_and_absent :
    (∀ segs : List FlagSeg, (∀ seg ∈ segs, wfSeg seg) →
        extract_flags (renderSegsStr segs) = flagsOfSegs segs)
  ∧ (∀ s : String, containsFlagLit s.data = false → extract_flags s = []) := by
  constructor
  · intro segs hwf
    show extractFlagsAux (renderSegs segs).length (renderSegs segs) = _
    exact extractFlagsAux_segs segs _ hwf le_rfl
  · intro s hs
    show extractFlagsAux s.data.length s.data = []
    exact extractFlagsAux_no_lit s.data s.data.length hs

/-- Witness for the amended C7: a response mixing quoted and unquoted
well-formed annotations yields exactly those flags in order, and text
containing brackets but never the literal `[FLAG:` yields none. -/
theorem extract_flags_wellformed_witness :
    extract_flags (renderSegsStr
      [FlagSeg.text "Report intro. ",
       FlagSeg.flag "Unknown person" "Alice",
       FlagSeg.text " led the session ",
       FlagSeg.flagU "Unverified talk Some Talk",
       FlagSeg.text "\n",
       FlagSeg.flag "Unsupported claim" "50% improvement"])
      = [{ type := "Unknown person", description := "Alice" },
         { type := "Unverified talk Some Talk", description := "" },
         { type := "Unsupported claim", description := "50% improvement" }]
    ∧ extract_flags "see [ref 1] and [note 2] here" = [] :=
  ⟨extract_flags_wellformed_and_absent.1 _ (by decide),
   extract_flags_wellformed_and_absent.2 _ (by decide)⟩

/-! ## C9: the JSON bundle interchange format

`assemble_all_tracks` writes each bundle with `json.dump(bundle, f,
indent=2)` (assembler.py lines 357-360) and `check_report_from_files`
reads it back with `json.load` (checker.py lines 265-266).  The Track
Bundle data model contains only strings, nulls, arrays and objects, so
the interchange values are embedded as the `Json` type below;
`prettyJson` models the `indent=2` serializer and `parseValue` the
loader, for exactly this fragment (ASCII strings with the common escapes
`\"`, `\\`, `\n`, `\t`, `\r`). -/

/-- A JSON value of the bundle interchange format. -/
inductive Json where
  | null
  | str (s : String)
  | arr (l : List Json)
  | obj (m : List (String × Json))

/-- The `{` character (written by code point). -/
def lbrace : Char := Char.ofNat 123

/-- The `}` character (written by code point). -/
def rbrace : Char := Char.ofNat 125

/-- JSON insignificant whitespace. -/
def isJsonWs (c : Char) : Bool := c = ' ' || c = '\t' || c = '\n' || c = '\r'

/-- A character the serializer emits verbatim or with a two-character
escape: printable ASCII, tab, newline, carriage return.  (Other control
or non-ASCII characters would be emitted as `\uXXXX` by `json.dump`,
outside this fragment.) -/
def jsonCharOk (c : Char) : Bool :=
  c = '\n' || c = '\t' || c = '\r' || (0x20 ≤ c.toNat && c.toNat ≤ 0x7e)

/-- All characters of the string lie in the modelled fragment. -/
def strOk (s : String) : Bool := s.data.all jsonCharOk

/-- The serializer's escape for one character. -/
def escapeChar (c : Char) : List Char :=
  if c = '"' then ['\\', '"']
  else if c = '\\' then ['\\', '\\']
  else if c = '\n' then ['\\', 'n']
  else if c = '\t' then ['\\', 't']
  else if c = '\r' then ['\\', 'r']
  else [c]

/-- Escape a whole string body. -/
def escapeStr : List Char → List Char
  | [] => []
  | c :: r => escapeChar c ++ escapeStr r

/-- A serialized JSON string: quote, escaped body, quote. -/
def quoteStr (l : List Char) : List Char := '"' :: (escapeStr l ++ ['"'])

/-- The indentation of `indent=2` pretty printing. -/
def padChars (ind : Nat) : List Char := List.replicate ind ' '

mutual

/-- `json.dump(..., indent=2)` for one value at indentation `ind`. -/
def prettyJson (ind : Nat) : Json → List Char
  | Json.null => ['n', 'u', 'l', 'l']
  | Json.str s => quoteStr s.data
  | Json.arr [] => ['[', ']']
  | Json.arr (v :: vs) =>
    '[' :: '\n' :: (prettyItems (ind + 2) (v :: vs)
      ++ '\n' :: (padChars ind ++ [']']))
  | Json.obj [] => [lbrace, rbrace]
  | Json.obj (kv :: kvs) =>
    lbrace :: '\n' :: (prettyMembers (ind + 2) (kv :: kvs)
      ++ '\n' :: (padChars ind ++ [rbrace]))

/-- Array elements, one per line, comma separated. -/
def prettyItems (ind : Nat) : List Json → List Char
  | [] => []
  | [v] => padChars ind ++ prettyJson ind v
  | v :: v2 :: vs =>
    padChars ind ++ prettyJson ind v ++ ',' :: '\n' :: prettyItems ind (v2 :: vs)

/-- Object members, one per line, `"key": value`, comma separated. -/
def prettyMembers (ind : Nat) : List (String × Json) → List Char
  | [] => []
  | [(k, v)] => padChars ind ++ quoteStr k.data ++ ':' :: ' ' :: prettyJson ind v
  | (k, v) :: kv2 :: kvs =>
    padChars ind ++ quoteStr k.data ++ ':' :: ' ' :: prettyJson ind v
      ++ ',' :: '\n' :: prettyMembers ind (kv2 :: kvs)

end

/-- The loader's unescaping of `\x` sequences in this fragment. -/
def unescapeChar (e : Char) : Option Char :=
  if e = '"' then some '"'
  else if e = '\\' then some '\\'
  else if e = 'n' then some '\n'
  else if e = 't' then some '\t'
  else if e = 'r' then some '\r'
  else none

/-- Parse a JSON string body after the opening quote, returning the
decoded characters and the input after the closing quote. -/
def parseStringBody : List Char → Option (List Char × List Char)
  | [] => none
  | c :: r =>
    if c = '"' then some ([], r)
    else if c = '\\' then
      match r with
      | e :: r2 =>
        match unescapeChar e with
        | some u => (parseStringBody r2).map (fun p => (u :: p.1, p.2))
        | none => none
      | [] => none
    else (parseStringBody r).map (fun p => (c :: p.1, p.2))

mutual

/-- `json.load` for one value of the fragment: skip whitespace, dispatch
on the first character.  Fuel decreases on every nested parse. -/
def parseValue : Nat → List Char → Option (Json × List Char)
  | 0, _ => none
  | fuel + 1, cs =>
    match cs.dropWhile isJsonWs with
    | [] => none
    | c :: r =>
      if c = '"' then
        (parseStringBody r).map (fun p => (Json.str (String.mk p.1), p.2))
      else if c = '[' then
        match r.dropWhile isJsonWs with
        | c2 :: r2 =>
          if c2 = ']' then some (Json.arr [], r2)
          else (parseItems fuel r).map (fun p => (Json.arr p.1, p.2))
        | [] => none
      else if c = lbrace then
        match r.dropWhile isJsonWs with
        | c2 :: r2 =>
          if c2 = rbrace then some (Json.obj [], r2)
          else (parseMembers fuel r).map (fun p => (Json.obj p.1, p.2))
        | [] => none
      else if c = 'n' then
        match r with
        | e1 :: e2 :: e3 :: r2 =>
          if e1 = 'u' ∧ e2 = 'l' ∧ e3 = 'l' then some (Json.null, r2) else none
        | _ => none
      else none

/-- Array elements after `[`: value, then `,` and more or `]`. -/
def parseItems : Nat → List Char → Option (List Json × List Char)
  | 0, _ => none
  | fuel + 1, cs =>
    match parseValue fuel cs with
    | some (v, r) =>
      match r.dropWhile isJsonWs with
      | c2 :: r2 =>
        if c2 = ',' then (parseItems fuel r2).map (fun p => (v :: p.1, p.2))
        else if c2 = ']' then some ([v], r2) else none
      | [] => none
    | none => none

/-- Object members after the opening brace: `"key"`, `:`, value, then
`,` and more or the closing brace. -/
def parseMembers : Nat → List Char → Option (List (String × Json) × List Char)
  | 0, _ => none
  | fuel + 1, cs =>
    match cs.dropWhile isJsonWs with
    | c :: r =>
      if c = '"' then
        match parseStringBody r with
        | some (k, r2) =>
          match r2.dropWhile isJsonWs with
          | c3 :: r3 =>
            if c3 = ':' then
              match parseValue fuel r3 with
              | some (v, r4) =>
                match r4.dropWhile isJsonWs with
                | c5 :: r5 =>
                  if c5 = ',' then
                    (parseMembers fuel r5).map
                      (fun p => ((String.mk k, v) :: p.1, p.2))
                  else if c5 = rbrace then some ([(String.mk k, v)], r5)
                  else none
                | [] => none
              | none => none
            else none
          | [] => none
        | none => none
      else none
    | [] => none

end

/-- `json.dump(value, f, indent=2)`: the serialized text. -/
def jsonSerialize (j : Json) : String := String.mk (prettyJson 0 j)

/-- `json.load`: parse the whole text (fuel amply covers any input the
scanner can consume), requiring only trailing whitespace to remain. -/
def jsonParse (s : String) : Option Json :=
  match parseValue (2 * s.data.length + 2) s.data with
  | some (j, rest) => if (rest.dropWhile isJsonWs).isEmpty then some j else none
  | none => none

/-- The values of the modelled fragment: every string (and key) within
the fragment's character set. -/
inductive JsonOk : Json → Prop where
  | null : JsonOk Json.null
  | str (s : String) : strOk s = true → JsonOk (Json.str s)
  | arr (l : List Json) : (∀ v ∈ l, JsonOk v) → JsonOk (Json.arr l)
  | obj (m : List (String × Json)) :
      (∀ kv ∈ m, strOk kv.1 = true) → (∀ kv ∈ m, JsonOk kv.2) →
      JsonOk (Json.obj m)

/-- An optional string field, `None` serialized as `null`. -/
def optStrToJson : Option String → Json
  | none => Json.null
  | some s => Json.str s

/-- An author dictionary as serialized. -/
def authorToJson (a : Author) : Json :=
  Json.obj [("name", Json.str a.name), ("affiliation", Json.str a.affiliation)]

/-- A talk dictionary as serialized (key order of assembler.py
lines 102-109). -/
def talkToJson (t : Talk) : Json :=
  Json.obj [("title", Json.str t.title),
            ("authors", Json.arr (t.authors.map authorToJson)),
            ("abstract", Json.str t.abstract),
            ("track", Json.str t.track)]

/-- A leaders element as serialized. -/
def leaderEntryToJson : LeaderEntry → Json
  | LeaderEntry.obj n a =>
    Json.obj [("name", Json.str n), ("affiliation", Json.str a)]
  | LeaderEntry.str s => Json.str s

/-- A lightning-talks element as serialized. -/
def talkEntryToJson : TalkEntry → Json
  | TalkEntry.obj t => talkToJson t
  | TalkEntry.str s => Json.str s

/-- An attendees element as serialized. -/
def attendeeEntryToJson : AttendeeEntry → Json
  | AttendeeEntry.obj a =>
    Json.obj [("name", Json.str a.name), ("organization", Json.str a.organization)]
  | AttendeeEntry.str s => Json.str s

/-- A session dictionary as serialized (key order of assembler.py
lines 282-292). -/
def sessionToJson (s : Session) : Json :=
  Json.obj [("id", Json.str s.id),
            ("title", Json.str s.title),
            ("slot", optStrToJson s.slot),
            ("leaders", Json.arr (s.leaders.map leaderEntryToJson)),
            ("lightning_talks", Json.arr (s.lightning_talks.map talkEntryToJson)),
            ("attendees", Json.arr (s.attendees.map attendeeEntryToJson)),
            ("notes", optStrToJson s.notes)]

/-- The bundle dictionary as serialized (key order of assembler.py
lines 299-307). -/
def bundleToJson (b : Bundle) : Json :=
  Json.obj [("track", Json.obj [("id", Json.str b.track.id),
                                ("name", Json.str b.track.name),
                                ("room", optStrToJson b.track.room)]),
            ("sessions", Json.arr (b.sessions.map sessionToJson)),
            ("sources", Json.arr (b.sources.map Json.str))]

/-- All strings of a bundle lie in the modelled character fragment
(printable ASCII plus tab, newline, carriage return). -/
def optStrOkB : Option String → Bool
  | none => true
  | some s => strOk s

/-- String well-formedness of one author. -/
def authorOkB (a : Author) : Bool := strOk a.name && strOk a.affiliation

/-- String well-formedness of one talk. -/
def talkOkB (t : Talk) : Bool :=
  strOk t.title && t.authors.all authorOkB && strOk t.abstract && strOk t.track

/-- String well-formedness of one leaders element. -/
def leaderEntryOkB : LeaderEntry → Bool
  | LeaderEntry.obj n a => strOk n && strOk a
  | LeaderEntry.str s => strOk s

/-- String well-formedness of one lightning-talks element. -/
def talkEntryOkB : TalkEntry → Bool
  | TalkEntry.obj t => talkOkB t
  | TalkEntry.str s => strOk s

/-- String well-formedness of one attendees element. -/
def attendeeEntryOkB : AttendeeEntry → Bool
  | AttendeeEntry.obj a => strOk a.name && strOk a.organization
  | AttendeeEntry.str s => strOk s

/-- String well-formedness of one session. -/
def sessionOkB (s : Session) : Bool :=
  strOk s.id && strOk s.title && optStrOkB s.slot
    && s.leaders.all leaderEntryOkB && s.lightning_talks.all talkEntryOkB
    && s.attendees.all attendeeEntryOkB && optStrOkB s.notes

/-- String well-formedness of a whole bundle. -/
def bundleStringsOk (b : Bundle) : Bool :=
  strOk b.track.id && strOk b.track.name && optStrOkB b.track.room
    && b.sessions.all sessionOkB && b.sources.all strOk

theorem strOk_key_literal (s : String) (h : s.data.all jsonCharOk = true) :
    strOk s = true := h

theorem optStrToJson_ok (o : Option String) (h : optStrOkB o = true) :
    JsonOk (optStrToJson o) := by
  cases o with
  | none => exact JsonOk.null
  | some s => exact JsonOk.str s h

theorem authorToJson_ok (a : Author) (h : authorOkB a = true) :
    JsonOk (authorToJson a) := by
  simp only [authorOkB, Bool.and_eq_true_iff] at h
  refine JsonOk.obj _ ?_ ?_ <;>
    (intro kv hkv;
     simp only [List.mem_cons, List.not_mem_nil, or_false] at hkv)
  · rcases hkv with rfl | rfl <;> rfl
  · rcases hkv with rfl | rfl
    · exact JsonOk.str _ h.1
    · exact JsonOk.str _ h.2

theorem talkToJson_ok (t : Talk) (h : talkOkB t = true) :
    JsonOk (talkToJson t) := by
  simp only [talkOkB, Bool.and_eq_true_iff, List.all_eq_true] at h
  obtain ⟨⟨⟨h1, h2⟩, h3⟩, h4⟩ := h
  refine JsonOk.obj _ ?_ ?_ <;>
    (intro kv hkv;
     simp only [List.mem_cons, List.not_mem_nil, or_false] at hkv)
  · rcases hkv with rfl | rfl | rfl | rfl <;> rfl
  · rcases hkv with rfl | rfl | rfl | rfl
    · exact JsonOk.str _ h1
    · refine JsonOk.arr _ ?_
      intro v hv
      simp only [List.mem_map] at hv
      obtain ⟨a, ha, rfl⟩ := hv
      exact authorToJson_ok a (h2 a ha)
    · exact JsonOk.str _ h3
    · exact JsonOk.str _ h4

theorem leaderEntryToJson_ok (l : LeaderEntry) (h : leaderEntryOkB l = true) :
    JsonOk (leaderEntryToJson l) := by
  cases l with
  | obj n a =>
    simp only [leaderEntryOkB, Bool.and_eq_true_iff] at h
    refine JsonOk.obj _ ?_ ?_ <;>
      (intro kv hkv;
       simp only [List.mem_cons, List.not_mem_nil, or_false] at hkv)
    · rcases hkv with rfl | rfl <;> rfl
    · rcases hkv with rfl | rfl
      · exact JsonOk.str _ h.1
      · exact JsonOk.str _ h.2
  | str s => exact JsonOk.str s h

theorem talkEntryToJson_ok (l : TalkEntry) (h : talkEntryOkB l = true) :
    JsonOk (talkEntryToJson l) := by
  cases l with
  | obj t => exact talkToJson_ok t h
  | str s => exact JsonOk.str s h

theorem attendeeEntryToJson_ok (l : AttendeeEntry) (h : attendeeEntryOkB l = true) :
    JsonOk (attendeeEntryToJson l) := by
  cases l with
  | obj a =>
    simp only [attendeeEntryOkB, Bool.and_eq_true_iff] at h
    refine JsonOk.obj _ ?_ ?_ <;>
      (intro kv hkv;
       simp only [List.mem_cons, List.not_mem_nil, or_false] at hkv)
    · rcases hkv with rfl | rfl <;> rfl
    · rcases hkv with rfl | rfl
      · exact JsonOk.str _ h.1
      · exact JsonOk.str _ h.2
  | str s => exact JsonOk.str s h

theorem sessionToJson_ok (s : Session) (h : sessionOkB s = true) :
    JsonOk (sessionToJson s) := by
  simp only [sessionOkB, Bool.and_eq_true_iff, List.all_eq_true] at h
  obtain ⟨⟨⟨⟨⟨⟨h1, h2⟩, h3⟩, h4⟩, h5⟩, h6⟩, h7⟩ := h
  refine JsonOk.obj _ ?_ ?_ <;>
    (intro kv hkv;
     simp only [List.mem_cons, List.not_mem_nil, or_false] at hkv)
  · rcases hkv with rfl | rfl | rfl | rfl | rfl | rfl | rfl <;> rfl
  · rcases hkv with rfl | rfl | rfl | rfl | rfl | rfl | rfl
    · exact JsonOk.str _ h1
    · exact JsonOk.str _ h2
    · exact optStrToJson_ok _ h3
    · refine JsonOk.arr _ ?_
      intro v hv
      simp only [List.mem_map] at hv
      obtain ⟨x, hx, rfl⟩ := hv
      exact leaderEntryToJson_ok x (h4 x hx)
    · refine JsonOk.arr _ ?_
      intro v hv
      simp only [List.mem_map] at hv
      obtain ⟨x, hx, rfl⟩ := hv
      exact talkEntryToJson_ok x (h5 x hx)
    · refine JsonOk.arr _ ?_
      intro v hv
      simp only [List.mem_map] at hv
      obtain ⟨x, hx, rfl⟩ := hv
      exact attendeeEntryToJson_ok x (h6 x hx)
    · exact optStrToJson_ok _ h7

theorem bundleToJson_ok (b : Bundle) (h : bundleStringsOk b = true) :
    JsonOk (bundleToJson b) := by
  simp only [bundleStringsOk, Bool.and_eq_true_iff, List.all_eq_true] at h
  obtain ⟨⟨⟨⟨h1, h2⟩, h3⟩, h4⟩, h5⟩ := h
  refine JsonOk.obj _ ?_ ?_ <;>
    (intro kv hkv;
     simp only [List.mem_cons, List.not_mem_nil, or_false] at hkv)
  · rcases hkv with rfl | rfl | rfl <;> rfl
  · rcases hkv with rfl | rfl | rfl
    · refine JsonOk.obj _ ?_ ?_ <;>
        (intro kv2 hkv2;
         simp only [List.mem_cons, List.not_mem_nil, or_false] at hkv2)
      · rcases hkv2 with rfl | rfl | rfl <;> rfl
      · rcases hkv2 with rfl | rfl | rfl
        · exact JsonOk.str _ h1
        · exact JsonOk.str _ h2
        · exact optStrToJson_ok _ h3
    · refine JsonOk.arr _ ?_
      intro v hv
      simp only [List.mem_map] at hv
      obtain ⟨x, hx, rfl⟩ := hv
      exact sessionToJson_ok x (h4 x hx)
    · refine JsonOk.arr _ ?_
      intro v hv
      simp only [List.mem_map] at hv
      obtain ⟨x, hx, rfl⟩ := hv
      exact JsonOk.str _ (h5 x hx)

theorem dropWhile_append_all (p : Char → Bool) (l x : List Char)
    (h : ∀ c ∈ l, p c = true) : (l ++ x).dropWhile p = x.dropWhile p := by
  induction l with
  | nil => rfl
  | cons c r ih =>
    have hc : p c = true := h c (by simp)
    simp only [List.cons_append, List.dropWhile_cons, hc, if_true]
    exact ih (fun a ha => h a (by simp [ha]))

theorem dropWhile_ws_concrete (p : Char → Bool) (ws x : List Char) (c : Char)
    (hws : ∀ a ∈ ws, p a = true) (hc : p c = false) :
    (ws ++ c :: x).dropWhile p = c :: x := by
  rw [dropWhile_append_all p ws _ hws]
  simp [List.dropWhile_cons, hc]

theorem padChars_ws (ind : Nat) : ∀ c ∈ padChars ind, isJsonWs c = true := by
  intro c hc
  have : c = ' ' := List.eq_of_mem_replicate hc
  subst this
  rfl

/-- The first character of a serialized value: never whitespace, never a
closing bracket or brace. -/
theorem prettyJson_head (ind : Nat) (j : Json) :
    ∃ c x, prettyJson ind j = c :: x
      ∧ isJsonWs c = false ∧ c ≠ ']' ∧ c ≠ rbrace := by
  cases j with
  | null => refine ⟨'n', _, rfl, ?_, ?_, ?_⟩ <;> decide
  | str s => refine ⟨'"', _, rfl, ?_, ?_, ?_⟩ <;> decide
  | arr l =>
    cases l with
    | nil => refine ⟨'[', _, rfl, ?_, ?_, ?_⟩ <;> decide
    | cons v vs =>
      refine ⟨'[', '\n' :: (prettyItems (ind + 2) (v :: vs)
        ++ '\n' :: (padChars ind ++ [']'])), ?_, ?_, ?_, ?_⟩
      · rw [prettyJson]
      all_goals decide
  | obj m =>
    cases m with
    | nil => refine ⟨lbrace, _, rfl, ?_, ?_, ?_⟩ <;> decide
    | cons kv kvs =>
      refine ⟨lbrace, '\n' :: (prettyMembers (ind + 2) (kv :: kvs)
        ++ '\n' :: (padChars ind ++ [rbrace])), ?_, ?_, ?_, ?_⟩
      · rw [prettyJson]
      all_goals decide

/-- Parsing the escaped body of a string recovers it exactly. -/
theorem parseStringBody_escape (s : List Char) : ∀ rest : List Char,
    parseStringBody (escapeStr s ++ '"' :: rest) = some (s, rest) := by
  induction s with
  | nil =>
    intro rest
    show parseStringBody ([] ++ '"' :: rest) = some ([], rest)
    rw [List.nil_append]
    unfold parseStringBody
    simp
  | cons c s2 ih =>
    intro rest
    by_cases h1 : c = '"'
    · subst h1
      show parseStringBody (escapeChar '"' ++ escapeStr s2 ++ '"' :: rest) = _
      rw [show escapeChar '"' = ['\\', '"'] from rfl]
      unfold parseStringBody
      simp [unescapeChar, ih]
    · by_cases h2 : c = '\\'
      · subst h2
        show parseStringBody (escapeChar '\\' ++ escapeStr s2 ++ '"' :: rest) = _
        rw [show escapeChar '\\' = ['\\', '\\'] from rfl]
        unfold parseStringBody
        simp [unescapeChar, ih]
      · by_cases h3 : c = '\n'
        · subst h3
          show parseStringBody (escapeChar '\n' ++ escapeStr s2 ++ '"' :: rest) = _
          rw [show escapeChar '\n' = ['\\', 'n'] from rfl]
          unfold parseStringBody
          simp [unescapeChar, ih]
        · by_cases h4 : c = '\t'
          · subst h4
            show parseStringBody (escapeChar '\t' ++ escapeStr s2 ++ '"' :: rest) = _
            rw [show escapeChar '\t' = ['\\', 't'] from rfl]
            unfold parseStringBody
            simp [unescapeChar, ih]
          · by_cases h5 : c = '\r'
            · subst h5
              show parseStringBody (escapeChar '\r' ++ escapeStr s2 ++ '"' :: rest) = _
              rw [show escapeChar '\r' = ['\\', 'r'] from rfl]
              unfold parseStringBody
              simp [unescapeChar, ih]
            · show parseStringBody (escapeChar c ++ escapeStr s2 ++ '"' :: rest) = _
              rw [show escapeChar c = [c] by simp [escapeChar, h1, h2, h3, h4, h5]]
              unfold parseStringBody
              simp [h1, h2, ih]

/-- A non-empty item list prints as indentation, the first value, and a
tail. -/
theorem prettyItems_shape (ind : Nat) (v : Json) (vs : List Json) :
    ∃ tail, prettyItems ind (v :: vs)
      = padChars ind ++ (prettyJson ind v ++ tail) := by
  cases vs with
  | nil =>
    refine ⟨[], ?_⟩
    simp [prettyItems]
  | cons y ys =>
    refine ⟨',' :: '\n' :: prettyItems ind (y :: ys), ?_⟩
    simp [prettyItems]

/-- A non-empty member list prints as indentation, the quoted first key,
a colon, a space, the first value, and a tail. -/
theorem prettyMembers_shape (ind : Nat) (kv : String × Json)
    (kvs : List (String × Json)) :
    ∃ tail, prettyMembers ind (kv :: kvs)
      = padChars ind ++ (quoteStr kv.1.data ++ ':' :: ' '
          :: (prettyJson ind kv.2 ++ tail)) := by
  cases kvs with
  | nil =>
    refine ⟨[], ?_⟩
    obtain ⟨k, v⟩ := kv
    simp [prettyMembers]
  | cons y ys =>
    refine ⟨',' :: '\n' :: prettyMembers ind (y :: ys), ?_⟩
    obtain ⟨k, v⟩ := kv
    simp [prettyMembers]

/-- Parsing the printed items of a non-empty array, followed by optional
whitespace and the closing `]`, recovers the list. -/
theorem parseItems_print : ∀ (l : List Json),
    (∀ v ∈ l, ∀ (ind : Nat) (ws rest : List Char) (fuel : Nat),
        (∀ c ∈ ws, isJsonWs c = true) →
        2 * (ws ++ prettyJson ind v ++ rest).length + 1 ≤ fuel →
        parseValue fuel (ws ++ prettyJson ind v ++ rest) = some (v, rest)) →
    ∀ (ind : Nat) (wsA ws2 rest : List Char) (fuel : Nat), l ≠ [] →
      (∀ c ∈ wsA, isJsonWs c = true) → (∀ c ∈ ws2, isJsonWs c = true) →
      2 * (wsA ++ prettyItems ind l ++ ws2 ++ ']' :: rest).length + 2 ≤ fuel →
      parseItems fuel (wsA ++ prettyItems ind l ++ ws2 ++ ']' :: rest)
        = some (l, rest) := by
  intro l
  induction l with
  | nil => intro _ _ _ _ _ _ hne; exact absurd rfl hne
  | cons v vs ih =>
    intro IH ind wsA ws2 rest fuel _ hwsA hws2 hfuel
    have hwsPad : ∀ c ∈ wsA ++ padChars ind, isJsonWs c = true := by
      intro c hc
      rcases List.mem_append.mp hc with h | h
      · exact hwsA c h
      · exact padChars_ws ind c h
    cases vs with
    | nil =>
      cases fuel with
      | zero => omega
      | succ f =>
        unfold parseItems
        have key := IH v (by simp) ind (wsA ++ padChars ind)
          (ws2 ++ ']' :: rest) f hwsPad
          (by
            simp only [prettyItems, List.length_append, List.length_cons] at hfuel ⊢
            omega)
        simp only [prettyItems, List.append_assoc, List.cons_append] at key ⊢
        rw [key]
        dsimp only
        rw [dropWhile_ws_concrete isJsonWs ws2 rest ']' hws2 (by decide)]
        simp
    | cons y ys =>
      cases fuel with
      | zero => omega
      | succ f =>
        unfold parseItems
        obtain ⟨c0, x0, hpv, _, _, _⟩ := prettyJson_head ind v
        have hpvlen : (prettyJson ind v).length = x0.length + 1 := by
          rw [hpv]; rfl
        have key := IH v (by simp) ind (wsA ++ padChars ind)
          (',' :: '\n' :: (prettyItems ind (y :: ys) ++ ws2 ++ ']' :: rest)) f
          hwsPad
          (by
            simp only [prettyItems, List.length_append, List.length_cons] at hfuel ⊢
            omega)
        have hsub := ih (fun w hw => IH w (by simp [hw])) ind ['\n'] ws2 rest f
          (by simp) (by intro c hc; simp at hc; subst hc; rfl) hws2
          (by
            simp only [prettyItems, List.length_append, List.length_cons,
              List.length_nil, hpvlen] at hfuel ⊢
            omega)
        simp only [prettyItems, List.append_assoc, List.cons_append,
          List.nil_append] at key hsub ⊢
        rw [key]
        dsimp only
        rw [show (',' :: '\n' :: (prettyItems ind (y :: ys)
            ++ (ws2 ++ ']' :: rest))).dropWhile isJsonWs
          = ',' :: '\n' :: (prettyItems ind (y :: ys) ++ (ws2 ++ ']' :: rest)) by
          simp [List.dropWhile_cons, show isJsonWs ',' = false from rfl]]
        dsimp only
        rw [if_pos rfl]
        rw [hsub]
        rfl

/-- Parsing the printed members of a non-empty object, followed by
optional whitespace and the closing brace, recovers the member list. -/
theorem parseMembers_print : ∀ (m : List (String × Json)),
    (∀ kv ∈ m, ∀ (ind : Nat) (ws rest : List Char) (fuel : Nat),
        (∀ c ∈ ws, isJsonWs c = true) →
        2 * (ws ++ prettyJson ind (Prod.snd kv) ++ rest).length + 1 ≤ fuel →
        parseValue fuel (ws ++ prettyJson ind (Prod.snd kv) ++ rest)
          = some (Prod.snd kv, rest)) →
    ∀ (ind : Nat) (wsA ws2 rest : List Char) (fuel : Nat), m ≠ [] →
      (∀ c ∈ wsA, isJsonWs c = true) → (∀ c ∈ ws2, isJsonWs c = true) →
      2 * (wsA ++ prettyMembers ind m ++ ws2 ++ rbrace :: rest).length + 2 ≤ fuel →
      parseMembers fuel (wsA ++ prettyMembers ind m ++ ws2 ++ rbrace :: rest)
        = some (m, rest) := by
  intro m
  induction m with
  | nil => intro _ _ _ _ _ _ hne; exact absurd rfl hne
  | cons kv kvs ih =>
    obtain ⟨k, v⟩ := kv
    intro IH ind wsA ws2 rest fuel _ hwsA hws2 hfuel
    have hkey := IH (k, v) (by simp)
    cases kvs with
    | nil =>
      cases fuel with
      | zero => omega
      | succ f =>
        unfold parseMembers
        have key := hkey ind [' '] (ws2 ++ rbrace :: rest) f
          (by intro c hc; simp at hc; subst hc; rfl)
          (by
            simp only [prettyMembers, quoteStr, List.length_append,
              List.length_cons, List.length_nil] at hfuel ⊢
            omega)
        simp only [prettyMembers, quoteStr, List.append_assoc, List.cons_append,
          List.nil_append] at key ⊢
        rw [dropWhile_append_all isJsonWs wsA _ hwsA,
          dropWhile_append_all isJsonWs (padChars ind) _ (padChars_ws ind)]
        rw [show ('"' :: (escapeStr k.data ++ '"' :: ':' :: ' '
            :: (prettyJson ind v ++ (ws2 ++ rbrace :: rest)))).dropWhile isJsonWs
          = '"' :: (escapeStr k.data ++ '"' :: ':' :: ' '
            :: (prettyJson ind v ++ (ws2 ++ rbrace :: rest))) by
          simp [List.dropWhile_cons, show isJsonWs '"' = false from rfl]]
        dsimp only
        rw [if_pos rfl]
        rw [show escapeStr k.data ++ '"' :: ':' :: ' '
            :: (prettyJson ind v ++ (ws2 ++ rbrace :: rest))
          = escapeStr k.data ++ '"' :: (':' :: ' '
            :: (prettyJson ind v ++ (ws2 ++ rbrace :: rest))) from rfl]
        rw [parseStringBody_escape]
        dsimp only
        rw [show (':' :: ' ' :: (prettyJson ind v
            ++ (ws2 ++ rbrace :: rest))).dropWhile isJsonWs
          = ':' :: ' ' :: (prettyJson ind v ++ (ws2 ++ rbrace :: rest)) by
          simp [List.dropWhile_cons, show isJsonWs ':' = false from rfl]]
        dsimp only
        rw [if_pos rfl]
        rw [key]
        dsimp only
        rw [dropWhile_ws_concrete isJsonWs ws2 rest rbrace hws2 (by decide)]
        dsimp only
        rw [if_neg (by decide), if_pos rfl, string_mk_data]
    | cons y ys =>
      cases fuel with
      | zero => omega
      | succ f =>
        unfold parseMembers
        obtain ⟨c0, x0, hpv, _, _, _⟩ := prettyJson_head ind v
        have hpvlen : (prettyJson ind v).length = x0.length + 1 := by
          rw [hpv]; rfl
        have key := hkey ind [' ']
          (',' :: '\n' :: (prettyMembers ind (y :: ys) ++ ws2 ++ rbrace :: rest)) f
          (by intro c hc; simp at hc; subst hc; rfl)
          (by
            simp only [prettyMembers, quoteStr, List.length_append,
              List.length_cons, List.length_nil] at hfuel ⊢
            omega)
        have hsub := ih (fun w hw => IH w (by simp [hw])) ind ['\n'] ws2 rest f
          (by simp) (by intro c hc; simp at hc; subst hc; rfl) hws2
          (by
            simp only [prettyMembers, quoteStr, List.length_append,
              List.length_cons, List.length_nil, hpvlen] at hfuel ⊢
            omega)
        simp only [prettyMembers, quoteStr, List.append_assoc, List.cons_append,
          List.nil_append] at key hsub ⊢
        rw [dropWhile_append_all isJsonWs wsA _ hwsA,
          dropWhile_append_all isJsonWs (padChars ind) _ (padChars_ws ind)]
        rw [show ('"' :: (escapeStr k.data ++ '"' :: ':' :: ' '
            :: (prettyJson ind v ++ ',' :: '\n'
              :: (prettyMembers ind (y :: ys)
                ++ (ws2 ++ rbrace :: rest))))).dropWhile isJsonWs
          = '"' :: (escapeStr k.data ++ '"' :: ':' :: ' '
            :: (prettyJson ind v ++ ',' :: '\n'
              :: (prettyMembers ind (y :: ys) ++ (ws2 ++ rbrace :: rest)))) by
          simp [List.dropWhile_cons, show isJsonWs '"' = false from rfl]]
        dsimp only
        rw [if_pos rfl]
        rw [show escapeStr k.data ++ '"' :: ':' :: ' '
            :: (prettyJson ind v ++ ',' :: '\n'
              :: (prettyMembers ind (y :: ys) ++ (ws2 ++ rbrace :: rest)))
          = escapeStr k.data ++ '"' :: (':' :: ' '
            :: (prettyJson ind v ++ ',' :: '\n'
              :: (prettyMembers ind (y :: ys) ++ (ws2 ++ rbrace :: rest)))) from rfl]
        rw [parseStringBody_escape]
        dsimp only
        rw [show (':' :: ' ' :: (prettyJson ind v ++ ',' :: '\n'
            :: (prettyMembers ind (y :: ys)
              ++ (ws2 ++ rbrace :: rest)))).dropWhile isJsonWs
          = ':' :: ' ' :: (prettyJson ind v ++ ',' :: '\n'
            :: (prettyMembers ind (y :: ys) ++ (ws2 ++ rbrace :: rest))) by
          simp [List.dropWhile_cons, show isJsonWs ':' = false from rfl]]
        dsimp only
        rw [if_pos rfl]
        rw [key]
        dsimp only
        rw [show (',' :: '\n' :: (prettyMembers ind (y :: ys)
            ++ (ws2 ++ rbrace :: rest))).dropWhile isJsonWs
          = ',' :: '\n' :: (prettyMembers ind (y :: ys)
            ++ (ws2 ++ rbrace :: rest)) by
          simp [List.dropWhile_cons, show isJsonWs ',' = false from rfl]]
        dsimp only
        rw [if_pos rfl]
        rw [hsub]
        simp [string_mk_data]

/-- Parsing the serialized form of any value of the fragment, embedded in
leading whitespace and an arbitrary remainder, recovers the value. -/
theorem parseValue_print (j : Json) (hj : JsonOk j) :
    ∀ (ind : Nat) (ws rest : List Char) (fuel : Nat),
      (∀ c ∈ ws, isJsonWs c = true) →
      2 * (ws ++ prettyJson ind j ++ rest).length + 1 ≤ fuel →
      parseValue fuel (ws ++ prettyJson ind j ++ rest) = some (j, rest) := by
  induction hj with
  | null =>
    intro ind ws rest fuel hws hfuel
    cases fuel with
    | zero => omega
    | succ f =>
      unfold parseValue
      simp only [prettyJson, List.append_assoc, List.cons_append, List.nil_append]
      rw [dropWhile_ws_concrete isJsonWs ws _ 'n' hws (by decide)]
      dsimp only
      rw [if_neg (by decide), if_neg (by decide), if_neg (by decide), if_pos rfl]
      simp
  | str s hsOk =>
    intro ind ws rest fuel hws hfuel
    cases fuel with
    | zero => omega
    | succ f =>
      unfold parseValue
      simp only [prettyJson, quoteStr, List.append_assoc, List.cons_append,
        List.nil_append]
      rw [dropWhile_ws_concrete isJsonWs ws _ '"' hws (by decide)]
      dsimp only
      rw [if_pos rfl]
      rw [show escapeStr s.data ++ '"' :: rest
          = escapeStr s.data ++ '"' :: rest from rfl]
      rw [parseStringBody_escape]
      simp [string_mk_data]
  | arr l hl ihl =>
    intro ind ws rest fuel hws hfuel
    cases l with
    | nil =>
      cases fuel with
      | zero => omega
      | succ f =>
        unfold parseValue
        simp only [prettyJson, List.append_assoc, List.cons_append,
          List.nil_append]
        rw [dropWhile_ws_concrete isJsonWs ws _ '[' hws (by decide)]
        dsimp only
        rw [if_neg (by decide), if_pos rfl]
        rw [show (']' :: rest).dropWhile isJsonWs = ']' :: rest by
          simp [List.dropWhile_cons, show isJsonWs ']' = false from rfl]]
        dsimp only
        rw [if_pos rfl]
    | cons v vs =>
      cases fuel with
      | zero => omega
      | succ f =>
        unfold parseValue
        obtain ⟨tl, htl⟩ := prettyItems_shape (ind + 2) v vs
        obtain ⟨c0, x0, hpv, hc0ws, hc0br, _⟩ := prettyJson_head (ind + 2) v
        have hitems := parseItems_print (v :: vs) ihl (ind + 2) ['\n']
          ('\n' :: padChars ind) rest f (by simp) (by
            intro c hc; simp at hc; subst hc; rfl)
          (by
            intro c hc
            rcases List.mem_cons.mp hc with rfl | hc2
            · rfl
            · exact padChars_ws ind c hc2)
          (by
            simp only [prettyJson, List.length_append, List.length_cons,
              List.length_nil] at hfuel ⊢
            omega)
        simp only [prettyJson, List.append_assoc, List.cons_append,
          List.nil_append] at hitems ⊢
        rw [dropWhile_ws_concrete isJsonWs ws _ '[' hws (by decide)]
        dsimp only
        rw [if_neg (by decide), if_pos rfl]
        rw [show ('\n' :: (prettyItems (ind + 2) (v :: vs)
            ++ '\n' :: (padChars ind ++ ']' :: rest))).dropWhile isJsonWs
          = ((('\n' :: padChars (ind + 2)) ++ (prettyJson (ind + 2) v
              ++ (tl ++ '\n' :: (padChars ind ++ ']' :: rest)))).dropWhile
                isJsonWs) by
          rw [htl]
          simp [List.append_assoc]]
        rw [hpv]
        rw [show ('\n' :: padChars (ind + 2))
            ++ ((c0 :: x0) ++ (tl ++ '\n' :: (padChars ind ++ ']' :: rest)))
          = ('\n' :: padChars (ind + 2))
            ++ (c0 :: (x0 ++ (tl ++ '\n' :: (padChars ind ++ ']' :: rest)))) by
          simp [List.append_assoc]]
        rw [dropWhile_ws_concrete isJsonWs ('\n' :: padChars (ind + 2)) _ c0
          (by
            intro c hc
            rcases List.mem_cons.mp hc with rfl | hc2
            · rfl
            · exact padChars_ws (ind + 2) c hc2)
          hc0ws]
        dsimp only
        rw [if_neg hc0br]
        rw [hitems]
        rfl
  | obj m hk hv ihm =>
    intro ind ws rest fuel hws hfuel
    cases m with
    | nil =>
      cases fuel with
      | zero => omega
      | succ f =>
        unfold parseValue
        simp only [prettyJson, List.append_assoc, List.cons_append,
          List.nil_append]
        rw [dropWhile_ws_concrete isJsonWs ws _ lbrace hws (by decide)]
        dsimp only
        rw [if_neg (by decide), if_neg (by decide), if_pos rfl]
        rw [show (rbrace :: rest).dropWhile isJsonWs = rbrace :: rest by
          simp [List.dropWhile_cons, show isJsonWs rbrace = false from rfl]]
        dsimp only
        rw [if_pos rfl]
    | cons kv kvs =>
      cases fuel with
      | zero => omega
      | succ f =>
        unfold parseValue
        obtain ⟨tl, htl⟩ := prettyMembers_shape (ind + 2) kv kvs
        have hmem := parseMembers_print (kv :: kvs) ihm (ind + 2) ['\n']
          ('\n' :: padChars ind) rest f (by simp) (by
            intro c hc; simp at hc; subst hc; rfl)
          (by
            intro c hc
            rcases List.mem_cons.mp hc with rfl | hc2
            · rfl
            · exact padChars_ws ind c hc2)
          (by
            simp only [prettyJson, List.length_append, List.length_cons,
              List.length_nil] at hfuel ⊢
            omega)
        simp only [prettyJson, List.append_assoc, List.cons_append,
          List.nil_append] at hmem ⊢
        rw [dropWhile_ws_concrete isJsonWs ws _ lbrace hws (by decide)]
        dsimp only
        rw [if_neg (by decide), if_neg (by decide), if_pos rfl]
        rw [show ('\n' :: (prettyMembers (ind + 2) (kv :: kvs)
            ++ '\n' :: (padChars ind ++ rbrace :: rest))).dropWhile isJsonWs
          = ((('\n' :: padChars (ind + 2)) ++ ('"' :: (escapeStr kv.1.data
              ++ ('"' :: ':' :: ' ' :: (prettyJson (ind + 2) kv.2 ++ tl)
                ++ '\n' :: (padChars ind ++ rbrace :: rest))))).dropWhile
                  isJsonWs) by
          rw [htl]
          simp [quoteStr, List.append_assoc]]
        rw [dropWhile_ws_concrete isJsonWs ('\n' :: padChars (ind + 2)) _ '"'
          (by
            intro c hc
            rcases List.mem_cons.mp hc with rfl | hc2
            · rfl
            · exact padChars_ws (ind + 2) c hc2)
          (by decide)]
        dsimp only
        rw [if_neg (by decide)]
        rw [hmem]
        rfl

/-- Serialize-then-parse is the identity on values of the fragment. -/
theorem jsonParse_serialize (j : Json) (h : JsonOk j) :
    jsonParse (jsonSerialize j) = some j := by
  unfold jsonParse jsonSerialize
  have key := parseValue_print j h 0 [] []
    (2 * (String.mk (prettyJson 0 j)).data.length + 2) (by simp)
    (by simp [string_mk_data])
  simp only [List.nil_append, List.append_nil] at key
  rw [show (String.mk (prettyJson 0 j)).data = prettyJson 0 j from rfl]
  rw [key]
  rfl

/-- C9: for every bundle value (in particular every bundle produced by
`assemble_track_bundle`, with or without predefined sessions) whose
strings lie in the modelled character fragment, serializing the bundle to
the JSON bundle file (`json.dump(..., indent=2)`) and deserializing that
file (`json.load`) yields a structure identical to the serialized one:
the interchange round-trip is lossless. -/
theorem bundle_json_roundtrip (b : Bundle) (h : bundleStringsOk b = true) :
    jsonParse (jsonSerialize (bundleToJson b)) = some (bundleToJson b) :=
  jsonParse_serialize _ (bundleToJson_ok b h)

/-- A concrete bundle with a room, leaders, a talk, attendees and notes
containing characters that need escaping. -/
def roundtripWitnessBundle : Bundle :=
  { track := { id := "Track-1", name := "Track One", room := some "Room 2" },
    sessions := [
      { id := "Track-1-session-1",
        title := "Track One Session",
        slot := none,
        leaders := [LeaderEntry.obj "Lead Person" "Lab"],
        lightning_talks := [TalkEntry.obj
          { title := "A Talk",
            authors := [{ name := "Ada", affiliation := "Uni" }],
            abstract := "Line one\nLine two",
            track := "Track-1" }],
        attendees := [AttendeeEntry.obj { name := "Ada", organization := "Uni" }],
        notes := some "He said \"hi\"\tand left" }],
    sources := ["Track inputs: inputs/Track-1"] }

/-- Witness for C9 at the concrete bundle. -/
theorem bundle_json_roundtrip_witness :
    jsonParse (jsonSerialize (bundleToJson roundtripWitnessBundle))
      = some (bundleToJson roundtripWitnessBundle) :=
  bundle_json_roundtrip roundtripWitnessBundle (by decide)

end TPC
